import Mathlib

/-! # eadfetch: a shallow embedding of `main.go`

Go `string` values and byte slices that hold text are modelled as Lean `String`
(sequences of Unicode code points), which covers the texts that are valid UTF-8;
Go `int` is modelled as `Int`.  Functions of the Go standard library are
modelled from their documentation, each next to the place where the program
calls it.
-/

namespace Eadfetch

/-! ## Data model -/

/-- Record type `archonCollection` of `main.go`. -/
structure archonCollection where
  ID : Int
  CollectionIdentifier : String
  Title : String
  URL : String
deriving DecidableEq, Repr

/-! ## Decimal rendering (`strconv.Itoa`, `%d`) -/

/-- Decimal digit `d` (below ten) as a character. -/
def digitChar (d : Nat) : Char := Char.ofNat (48 + d)

/-- Decimal digits of a natural number, most significant first; the first
argument bounds the number of digits produced. -/
def utoaFuel : Nat → Nat → List Char
  | 0, _ => []
  | fuel + 1, n =>
    if n < 10 then [digitChar n] else utoaFuel fuel (n / 10) ++ [digitChar (n % 10)]

/-- Decimal digits of a natural number. -/
def utoa (n : Nat) : List Char := utoaFuel (n + 1) n

/-- Model of `strconv.Itoa`: the decimal text of an integer, with a leading
minus sign for a negative one. -/
def Itoa : Int → String
  | Int.ofNat n => String.mk (utoa n)
  | Int.negSucc n => String.mk ('-' :: utoa (n + 1))

/-- Value of a decimal digit character. -/
def digitVal (c : Char) : Nat := c.toNat - 48

/-- Value of a digit string read in base ten. -/
def decimalVal (cs : List Char) : Nat := cs.foldl (fun n c => n * 10 + digitVal c) 0

/-! ## `addURL` -/

/-- Function `addURL` of `main.go`: `fmt.Sprintf("%s%s%d", dn, urlString, ac.ID)`. -/
def addURL (dn : String) (ac : archonCollection) : String :=
  let urlString := "/index.php?p=collections/ead&templateset=ead&disabletheme=1&id="
  dn ++ urlString ++ Itoa ac.ID


/-! ## Go string library -/

/-- Model of `strings.Contains`: `substr` occurs in `s` as a contiguous block. -/
def Contains (s substr : String) : Bool :=
  s.data.tails.any (fun t => substr.data.isPrefixOf t)

/-- Pieces of a character list between the occurrences of `sep`. -/
def splitOn (sep : Char) : List Char → List (List Char)
  | [] => [[]]
  | c :: cs =>
    if c = sep then [] :: splitOn sep cs
    else
      match splitOn sep cs with
      | [] => [[c]]
      | p :: ps => (c :: p) :: ps

/-- Model of `strings.Split` for a separator of one character: the empty
string gives one empty piece. -/
def Split (s : String) (sep : Char) : List String :=
  (splitOn sep s.data).map String.mk

/-- Model of `strings.Join`. -/
def Join : List String → String → String
  | [], _ => ""
  | [a], _ => a
  | a :: b :: rest, sep => a ++ sep ++ Join (b :: rest) sep

/-- Model of `strings.TrimFunc`: drops the leading and the trailing characters
that satisfy `f`. -/
def TrimFunc (s : String) (f : Char → Bool) : String :=
  String.mk ((s.data.dropWhile f).reverse.dropWhile f).reverse

/-- Functions of the Go standard library that rest on the Unicode tables
(`unicode.IsLetter`, `strings.EqualFold`), taken as parameters. -/
structure Unicode where
  IsLetter : Char → Bool
  EqualFold : String → String → Bool

/-- The Unicode functions restricted to ASCII, for evaluation on ASCII text. -/
def asciiUnicode : Unicode where
  IsLetter := Char.isAlpha
  EqualFold := fun s t => s.data.map Char.toLower == t.data.map Char.toLower

/-- Go error values: `errors.New` and `*strconv.NumError`. -/
inductive GoError where
  | New (text : String)
  | NumError (Func Num Err : String)
deriving DecidableEq, Repr

/-- Digit loop of `strconv.ParseUint` in base ten with 64 bits, from the value
`n` read so far: a character that is no decimal digit ends the loop with the
text of `ErrSyntax`, a value that leaves `uint64` ends it with the text of
`ErrRange`, whichever comes first in the text. -/
def parseUintLoop : List Char → Nat → Except String Nat
  | [], n => Except.ok n
  | c :: cs, n =>
    if decide ('0' ≤ c) && decide (c ≤ '9') then
      if 2 ^ 64 ≤ n * 10 + digitVal c then Except.error "value out of range"
      else parseUintLoop cs (n * 10 + digitVal c)
    else Except.error "invalid syntax"

/-- Model of `strconv.Atoi` on a 64-bit platform (`ParseInt(s, 10, 0)` with the
function name of the error set to `Atoi`): a leading `-` or `+` is cut off, the
rest must be one or more decimal digits, read by the digit loop, and the value
must lie within the range of `int`; it is negated if the text began with `-`. -/
def Atoi (s : String) : Except GoError Int :=
  let s0 := s.data
  let neg : Bool := s0.head? = some '-'
  let ds := if s0.head? = some '-' ∨ s0.head? = some '+' then s0.tail else s0
  if ds = [] then Except.error (GoError.NumError "Atoi" s "invalid syntax")
  else
    match parseUintLoop ds 0 with
    | Except.error e => Except.error (GoError.NumError "Atoi" s e)
    | Except.ok un =>
      if (!neg && decide (2 ^ 63 ≤ un)) || (neg && decide (2 ^ 63 < un)) then
        Except.error (GoError.NumError "Atoi" s "value out of range")
      else Except.ok (if neg then -(un : Int) else (un : Int))

/-- The text `s` is a decimal integer within the range of a 64-bit `int`, and
`n` is the integer it denotes: an optional sign `+` or `-` followed by one or
more decimal digits. -/
def DecimalInt (s : String) (n : Int) : Prop :=
  ∃ ds : List Char, ds ≠ [] ∧ (∀ c ∈ ds, '0' ≤ c ∧ c ≤ '9')
    ∧ (((s.data = ds ∨ s.data = '+' :: ds) ∧ n = (decimalVal ds : Int))
        ∨ (s.data = '-' :: ds ∧ n = -(decimalVal ds : Int)))
    ∧ -(2 ^ 63 : Int) ≤ n ∧ n < (2 ^ 63 : Int)

/-! ## `sanitizeFilename`

The pattern compiled by `regexp.MustCompile` is, as a Go string,
`[` followed by a backquote and
`|!|@|#|$|%|^|&|*|(|)|+|=|{|}|[|]|\||:|;|"|<|>|/|\?|\,|\.|\s]*`.
The bracket expression that opens the pattern is closed by the first `]`, the
one after `[|`; what follows is a top-level alternation of the single
characters `|`, `:`, `;`, `"`, `<`, `>`, `/`, `?`, `,`, `.` whose last member
is `\s]*`: one white-space character followed by any number of `]`. -/

/-- Members of the bracket expression of `regExclude`. -/
def regExcludeClass : List Char := "`|!@#$%^&*()+=\x7b\x7d[".data

/-- Single characters that are alternatives of their own in `regExclude`. -/
def regExcludeSingles : List Char := "|:;\"<>/?,.".data

/-- Go regexp class `\s`: tab, line feed, form feed, carriage return, space. -/
def regSpace (c : Char) : Bool :=
  c = '\t' || c = '\n' || c = Char.ofNat 12 || c = '\r' || c = ' '

/-- Model of `regExclude.ReplaceAll(name, "_")`, left to right.  The flag tells
that the characters just read are a match of the last alternative `\s]*`, which
is greedy and so takes in every `]` that follows. -/
def replaceAllExclude : Bool → List Char → List Char
  | _, [] => []
  | inSpaceMatch, c :: cs =>
    if inSpaceMatch && c = ']' then replaceAllExclude true cs
    else if regExcludeClass.contains c || regExcludeSingles.contains c then
      '_' :: replaceAllExclude false cs
    else if regSpace c then '_' :: replaceAllExclude true cs
    else c :: replaceAllExclude false cs

/-- Function `sanitizeFilename` of `main.go`. -/
def sanitizeFilename (name : String) : String :=
  String.mk (replaceAllExclude false name.data)

/-! ## `generateFilename` -/

/-- Model of `reflect.Indirect(ctype).FieldByName(v).String()` on an
`archonCollection`: the value of a string field, `<int Value>` for the field
`ID`, and `<invalid Value>` when the struct has no field of that name. -/
def fieldString (collection : archonCollection) (v : String) : String :=
  if v = "ID" then "<int Value>"
  else if v = "CollectionIdentifier" then collection.CollectionIdentifier
  else if v = "Title" then collection.Title
  else if v = "URL" then collection.URL
  else "<invalid Value>"

/-- Loop of `generateFilename` that collects the non-empty name parts. -/
def nameParts (collection : archonCollection) (namePartOrder : List String) : List String :=
  namePartOrder.foldl
    (fun parts v =>
      let partStr := fieldString collection v
      if partStr = "" then parts else parts ++ [partStr])
    []

/-- Function `generateFilename` of `main.go`. -/
def generateFilename (collection : archonCollection) (nameFlag : String) : String :=
  if nameFlag = "" then "ead_" ++ Itoa collection.ID
  else
    let namePartOrder := Split nameFlag ','
    let parts := nameParts collection namePartOrder
    if parts.length = 0 then "ead_" ++ Itoa collection.ID
    else
      let name := sanitizeFilename (Join parts "__")
      name ++ "_" ++ Itoa collection.ID

/-- Field names that the `eadname` flag documents. -/
inductive NameField where
  | CollectionIdentifier
  | Title
deriving DecidableEq, Repr

/-- Name of a documented field, as written in the flag. -/
def NameField.name : NameField → String
  | NameField.CollectionIdentifier => "CollectionIdentifier"
  | NameField.Title => "Title"

/-- Value of a documented field in a record. -/
def NameField.value (r : archonCollection) : NameField → String
  | NameField.CollectionIdentifier => r.CollectionIdentifier
  | NameField.Title => r.Title

/-- The name flag that lists the given fields, separated by commas. -/
def flagOf (fields : List NameField) : String :=
  Join (fields.map NameField.name) ","

/-- Reference definition of the file name, following the specification: the
non-empty values of the named fields in flag order, joined by `__`, sanitized,
followed by `_` and the decimal ID; `ead_` and the decimal ID when the flag is
empty or no field has content. -/
def generateFilenameSpec (r : archonCollection) (fields : List NameField) : String :=
  let parts := (fields.map (NameField.value r)).filter (fun p => p ≠ "")
  if flagOf fields = "" ∨ parts = [] then "ead_" ++ Itoa r.ID
  else sanitizeFilename (Join parts "__") ++ "_" ++ Itoa r.ID

/-! ## `fieldMapper` and `csvToCollections` -/

/-- Go `map[string]int`, as an association list without repeated keys. -/
abbrev FieldMap := List (String × Nat)

/-- Assignment `fieldMap[k] = v`. -/
def FieldMap.set (m : FieldMap) (k : String) (v : Nat) : FieldMap :=
  m.filter (fun p => p.1 != k) ++ [(k, v)]

/-- Lookup with presence test, `v, ok := fieldMap[k]`. -/
def FieldMap.get? (m : FieldMap) (k : String) : Option Nat :=
  m.lookup k

/-- Plain lookup `fieldMap[k]`: the zero value when the key is absent. -/
def FieldMap.get (m : FieldMap) (k : String) : Nat :=
  (m.lookup k).getD 0

/-- Test of the inner loop of `fieldMapper`: the header cell, stripped of its
leading and trailing non-letters, equals the field name under case folding. -/
def columnMatches (u : Unicode) (v csvColumn : String) : Bool :=
  u.EqualFold v (TrimFunc csvColumn (fun r => !u.IsLetter r))

/-- Inner loop of `fieldMapper` for the field `v`, from the column index `key`
on: the index of the first matching header cell (the loop breaks there). -/
def scanHeader (u : Unicode) (v : String) : List String → Nat → Option Nat
  | [], _ => none
  | csvColumn :: rest, key =>
    if columnMatches u v csvColumn then some key else scanHeader u v rest (key + 1)

/-- Names of the record fields looked for in the header, in the order of the
slice `fields` of `fieldMapper`. -/
def fields : List String := ["ID", "CollectionIdentifier", "Title"]

/-- Function `fieldMapper` of `main.go`. -/
def fieldMapper (u : Unicode) (csvHeader : List String) : Except GoError FieldMap :=
  let fieldMap : FieldMap :=
    fields.foldl
      (fun fm v =>
        match scanHeader u v csvHeader 0 with
        | some key => FieldMap.set fm v key
        | none => fm)
      []
  if (FieldMap.get? fieldMap "ID").isSome then Except.ok fieldMap
  else Except.error (GoError.New "no ID column found in CSV")

/-- Result of `csvToCollections`: the slice behind `collections` on return, with
the error if one is returned, or a run-time panic. -/
inductive CsvResult where
  | ok (collections : List archonCollection)
  | error (collections : List archonCollection) (err : GoError)
  | panic (msg : String)
deriving DecidableEq, Repr

/-- Loop of `csvToCollections` over the data rows. -/
def csvRowsLoop (fieldMap : FieldMap) :
    List (List String) → List archonCollection → CsvResult
  | [], collections => CsvResult.ok collections
  | row :: rest, collections =>
    match row[FieldMap.get fieldMap "ID"]? with
    | none => CsvResult.panic "index out of range"
    | some idCell =>
      match Atoi idCell with
      | Except.error err => CsvResult.error collections err
      | Except.ok id =>
        match row[FieldMap.get fieldMap "CollectionIdentifier"]?,
              row[FieldMap.get fieldMap "Title"]? with
        | some ci, some title =>
          csvRowsLoop fieldMap rest
            (collections ++ [{ ID := id, CollectionIdentifier := ci, Title := title, URL := "" }])
        | _, _ => CsvResult.panic "index out of range"

/-- Function `csvToCollections` of `main.go`; the second argument is the slice
that `collections` points to on entry. -/
def csvToCollections (u : Unicode) (csvRows : List (List String))
    (collections : List archonCollection) : CsvResult :=
  match csvRows with
  | [] => CsvResult.panic "index out of range"
  | header :: rows =>
    match fieldMapper u header with
    | Except.error err => CsvResult.error collections err
    | Except.ok fieldMap => csvRowsLoop fieldMap rows collections

/-- Relation between a data row and the record that `csvToCollections` makes of
it: the ID is parsed from the cell at the index kept for `ID`, the two texts are
the cells at the indices kept for their names, the URL is left empty. -/
def rowRecord (fieldMap : FieldMap) (row : List String) (rec : archonCollection) : Prop :=
  (∃ idCell, row[FieldMap.get fieldMap "ID"]? = some idCell ∧ Atoi idCell = Except.ok rec.ID)
  ∧ row[FieldMap.get fieldMap "CollectionIdentifier"]? = some rec.CollectionIdentifier
  ∧ row[FieldMap.get fieldMap "Title"]? = some rec.Title
  ∧ rec.URL = ""

/-! ## The worker loop `getEAD` -/

/-- The part of `http.Response` that the program reads. -/
structure Response where
  Status : String
deriving DecidableEq, Repr

/-- What the outside world answers to the calls of one iteration of the loop of
`getEAD`, one field per returned value; a field is read only if the call is
reached.  An error is given by its `Error()` text, `none` standing for `nil`. -/
structure World where
  /-- Error returned by `http.NewRequestWithContext`; the request is `nil` then. -/
  newRequestErr : Option String
  /-- Response returned by `http.DefaultClient.Do`, `none` for a `nil` pointer. -/
  doRes : Option Response
  /-- Error returned by `http.DefaultClient.Do`. -/
  doErr : Option String
  /-- Bytes returned by `ioutil.ReadAll(res.Body)`. -/
  eadxml : String
  /-- Error returned by `ioutil.ReadAll(res.Body)`. -/
  readErr : Option String
  /-- Error returned by `ioutil.WriteFile`. -/
  writeErr : Option String
deriving DecidableEq, Repr

/-- How one iteration of the loop ends: with the next iteration (`continue` or
the end of the body), with `log.Fatal`, or with a run-time panic. -/
inductive Exit where
  | next
  | fatal
  | panic
deriving DecidableEq, Repr

/-- What one iteration of the loop does: the jobs sent on `rQueue`, the rows sent
on `resultsChan`, the calls of `ioutil.WriteFile` (path and data), and how the
iteration ends. -/
structure Effects where
  requeued : List archonCollection
  rows : List (List String)
  writeCalls : List (String × String)
  exit : Exit
deriving DecidableEq, Repr

/-- Text that `getEAD` looks for in an error to recognise a timeout. -/
def deadlineText : String := "context deadline exceeded"

/-- Text that `getEAD` looks for in a response body to recognise a collection
that the server could not load. -/
def sentinelText : String := "Could not load Collection: Collection ID"

/-- One iteration of the loop `for r := range rQueue` of `getEAD`, after the job
`r` is received and the rate ticker has fired. -/
def getEADStep (output nameflags : String) (r : archonCollection) (w : World) : Effects :=
  let requestError : String :=
    match w.newRequestErr with
    | some err => "Request Error: " ++ err
    | none => ""
  if w.newRequestErr.isSome then
    -- `request` is nil and `http.DefaultClient.Do` dereferences it
    { requeued := [], rows := [], writeCalls := [], exit := Exit.panic }
  else
    match w.doErr with
    | some err =>
      if Contains err deadlineText then
        { requeued := [r], rows := [], writeCalls := [], exit := Exit.next }
      else
        match w.doRes with
        | none =>
          -- `res.Status` with `res == nil`
          { requeued := [], rows := [], writeCalls := [], exit := Exit.panic }
        | some res =>
          { requeued := [],
            rows := [[r.URL, r.CollectionIdentifier, res.Status, "Request Error: " ++ err]],
            writeCalls := [], exit := Exit.next }
    | none =>
      match w.doRes with
      | none =>
        -- `res.Body` with `res == nil`
        { requeued := [], rows := [], writeCalls := [], exit := Exit.panic }
      | some res =>
        match w.readErr with
        | some err =>
          if Contains err deadlineText then
            { requeued := [r], rows := [], writeCalls := [], exit := Exit.next }
          else
            { requeued := [],
              rows := [[r.URL, r.CollectionIdentifier, res.Status,
                "Error reading response body. Adding back to request queue: " ++ err]],
              writeCalls := [], exit := Exit.next }
        | none =>
          if Contains w.eadxml sentinelText then
            { requeued := [],
              rows := [[r.URL, r.CollectionIdentifier, res.Status,
                "Request Error: " ++ w.eadxml]],
              writeCalls := [], exit := Exit.next }
          else
            let name := generateFilename r nameflags
            let eadfilename := output ++ "/" ++ name ++ ".xml"
            match w.writeErr with
            | some _ =>
              { requeued := [], rows := [], writeCalls := [(eadfilename, w.eadxml)],
                exit := Exit.fatal }
            | none =>
              { requeued := [],
                rows := [[r.URL, r.CollectionIdentifier, res.Status, requestError]],
                writeCalls := [(eadfilename, w.eadxml)], exit := Exit.next }

/-! ## The fetch engine of `main`: producer, workers, aggregator

Both channels are made without a buffer (`make(chan archonCollection)`,
`make(chan []string)`), so a send completes only together with a receive.  A
job "in the queue" is therefore a job that a sender offers on `reqQueue`: the
producer offers the head of the records it has not sent yet, a worker offers the
job it re-enqueues. -/

/-- State of one `getEAD` goroutine: it holds a job it has received, or it is at
the channel operations with the sends of its last iteration still to complete;
with no send left it waits to receive the next job. -/
inductive Worker where
  | attempting (r : archonCollection)
  | sending (requeued : List archonCollection) (rows : List (List String))
deriving DecidableEq, Repr

/-- A worker that waits in `range rQueue`. -/
def Worker.idle : Worker := Worker.sending [] []

/-- Number of jobs a worker holds or offers on `reqQueue`. -/
def Worker.jobs : Worker → Nat
  | Worker.attempting _ => 1
  | Worker.sending requeued _ => requeued.length

/-- Number of rows a worker offers on `resultsChan`. -/
def Worker.rowsOut : Worker → Nat
  | Worker.attempting _ => 0
  | Worker.sending _ rows => rows.length

/-- Flags of `main` that the engine uses. -/
structure Config where
  host : String
  output : String
  nameformat : String
  workers : Nat
deriving DecidableEq, Repr

/-- State of the engine. -/
structure State where
  /-- Records that the producer goroutine has not sent yet. -/
  todo : List archonCollection
  /-- The `getEAD` goroutines. -/
  workers : List Worker
  /-- The slice `resReturns` of the aggregator loop. -/
  resReturns : List (List String)
  /-- Length of `arCollections`, the bound of the aggregator loop. -/
  total : Nat
  /-- Number of re-enqueued jobs handed to a worker so far. -/
  retries : Nat
  /-- The process has ended by `log.Fatal` or by a panic; the other fields keep
  the values they had when it ended, and no step follows. -/
  halted : Bool
deriving DecidableEq, Repr

/-- State when the goroutines have been started. -/
def State.init (cfg : Config) (arCollections : List archonCollection) : State where
  todo := arCollections
  workers := List.replicate cfg.workers Worker.idle
  resReturns := []
  total := arCollections.length
  retries := 0
  halted := false

/-- Steps of the engine.
* `feed i`: the producer sends its next record, with the URL added, and worker
  `i` receives it;
* `attempt i w`: worker `i` runs one iteration on the job it holds, the world
  answering `w`;
* `handoff i k`: worker `i` completes the send of a re-enqueued job, which
  worker `k` receives;
* `collect i`: worker `i` completes the send of a row, which the aggregator
  loop receives. -/
inductive Action where
  | feed (i : Nat)
  | attempt (i : Nat) (w : World)
  | handoff (i k : Nat)
  | collect (i : Nat)
deriving DecidableEq, Repr

/-- One step of the engine; `none` when the step is not enabled. -/
def step (cfg : Config) (s : State) : Action → Option State
  | Action.feed i =>
    match s.halted, s.todo, s.workers[i]? with
    | false, v :: rest, some (Worker.sending [] []) =>
      some { s with
        todo := rest
        workers := s.workers.set i (Worker.attempting { v with URL := addURL cfg.host v }) }
    | _, _, _ => none
  | Action.attempt i w =>
    match s.halted, s.workers[i]? with
    | false, some (Worker.attempting r) =>
      let e := getEADStep cfg.output cfg.nameformat r w
      match e.exit with
      | Exit.next => some { s with workers := s.workers.set i (Worker.sending e.requeued e.rows) }
      | _ => some { s with halted := true }
    | _, _ => none
  | Action.handoff i k =>
    match s.halted, s.workers[i]?, s.workers[k]? with
    | false, some (Worker.sending (r :: requeued) rows), some (Worker.sending [] []) =>
      some { s with
        workers := (s.workers.set i (Worker.sending requeued rows)).set k (Worker.attempting r)
        retries := s.retries + 1 }
    | _, _, _ => none
  | Action.collect i =>
    match s.halted, s.workers[i]? with
    | false, some (Worker.sending requeued (row :: rows)) =>
      if s.resReturns.length < s.total then
        some { s with
          workers := s.workers.set i (Worker.sending requeued rows)
          resReturns := s.resReturns ++ [row] }
      else none
    | _, _ => none

/-- Runs a sequence of steps; `none` when one of them is not enabled. -/
def run (cfg : Config) : List Action → State → Option State
  | [], s => some s
  | a :: rest, s =>
    match step cfg s a with
    | some s1 => run cfg rest s1
    | none => none

/-- States that the engine reaches from its start on the given records. -/
def Reachable (cfg : Config) (arCollections : List archonCollection) (s : State) : Prop :=
  ∃ acts : List Action, run cfg acts (State.init cfg arCollections) = some s

/-- Number of rows emitted so far: received by the aggregator or offered to it. -/
def State.emitted (s : State) : Nat :=
  s.resReturns.length + (s.workers.map Worker.rowsOut).sum

/-- Number of jobs not yet terminal: not yet produced, or held or offered by a
worker. -/
def State.pending (s : State) : Nat :=
  s.todo.length + (s.workers.map Worker.jobs).sum

/-! ## The rate ticker of `main` -/

/-- Argument of `time.NewTicker` in `main`, in nanoseconds:
`time.Duration(1000/(*throttle)) * time.Millisecond`.  Integer division in Go
truncates and panics on a zero divisor. -/
def tickerPeriod (throttle : Int) : Except String Int :=
  if throttle = 0 then Except.error "integer divide by zero"
  else Except.ok (Int.tdiv 1000 throttle * 1000000)

/-- Model of `time.NewTicker`: it panics unless the period is positive; the
ticker is given by its period. -/
def NewTicker (d : Int) : Except String Int :=
  if d ≤ 0 then Except.error "non-positive interval for NewTicker" else Except.ok d

/-- Statement `rateTicker := time.NewTicker(...)` of `main`. -/
def rateTicker (throttle : Int) : Except String Int :=
  match tickerPeriod throttle with
  | Except.error msg => Except.error msg
  | Except.ok d => NewTicker d

/-! ## A schedule of the engine with a chosen number of retries -/

/-- Answers of the world when the request times out. -/
def timeoutWorld : World where
  newRequestErr := none
  doRes := none
  doErr := some "context deadline exceeded"
  eadxml := ""
  readErr := none
  writeErr := none

/-- Answers of the world when the document is fetched and written. -/
def okWorld : World where
  newRequestErr := none
  doRes := some ⟨"200 OK"⟩
  doErr := none
  eadxml := "<ead/>"
  readErr := none
  writeErr := none

/-- Row that a worker sends for the job `r` under `okWorld`. -/
def okRow (r : archonCollection) : List String :=
  [r.URL, r.CollectionIdentifier, "200 OK", ""]

/-- The first two workers, one of which (number `p`) is in the state `w` while
the other waits, followed by the remaining workers. -/
def pairAt (p : Nat) (w : Worker) (rest : List Worker) : List Worker :=
  if p = 0 then w :: Worker.idle :: rest else Worker.idle :: w :: rest

/-- Steps in which the job held by worker `p` times out `k` times, passing
between the workers 0 and 1, and then succeeds. -/
def retryActs : Nat → Nat → List Action
  | 0, p => [Action.attempt p okWorld, Action.collect p]
  | k + 1, p =>
    Action.attempt p timeoutWorld :: Action.handoff p (1 - p) :: retryActs k (1 - p)

/-- Steps in which worker 0 fetches `n` further records without a retry. -/
def restActs : Nat → List Action
  | 0 => []
  | n + 1 => Action.feed 0 :: Action.attempt 0 okWorld :: Action.collect 0 :: restActs n

/-- Steps for `n` records in which the first record is retried `k` times. -/
def schedule : Nat → Nat → List Action
  | 0, _ => []
  | n + 1, k => Action.feed 0 :: (retryActs k 0 ++ restActs n)

/-- Answers of the world when the document is fetched and cannot be written. -/
def writeFailWorld : World where
  newRequestErr := none
  doRes := some ⟨"200 OK"⟩
  doErr := none
  eadxml := "<ead/>"
  readErr := none
  writeErr := some "open ./ead_output/ead_1.xml: permission denied"

/-- The default flags of `main` with the given number of workers. -/
def defaultConfig (workers : Nat) : Config where
  host := "http://127.0.0.1"
  output := "./ead_output"
  nameformat := ""
  workers := workers

/-- The record of the tests of `main_test.go`. -/
def testRecord : archonCollection where
  ID := 1
  CollectionIdentifier := "VF00001"
  Title := "Some Title $"
  URL := ""
/-! ## Lemmas on decimal rendering -/

theorem utoaFuel_fuel (f1 : Nat) : ∀ (f2 n : Nat), n < f1 → n < f2 →
    utoaFuel f1 n = utoaFuel f2 n := by
  induction f1 with
  | zero => intro f2 n h; omega
  | succ f1 ih =>
    intro f2 n h1 h2
    cases f2 with
    | zero => omega
    | succ f2 =>
      simp only [utoaFuel]
      by_cases hn : n < 10
      · simp [hn]
      · simp only [hn, if_false]
        rw [ih f2 (n / 10) (by omega) (by omega)]

theorem utoa_lt (n : Nat) (h : n < 10) : utoa n = [digitChar n] := by
  simp [utoa, utoaFuel, h]

theorem utoa_ge (n : Nat) (h : 10 ≤ n) :
    utoa n = utoa (n / 10) ++ [digitChar (n % 10)] := by
  have hn : ¬ n < 10 := by omega
  unfold utoa
  rw [utoaFuel, if_neg hn, utoaFuel_fuel n (n / 10 + 1) (n / 10) (by omega) (by omega)]

theorem digitVal_digitChar (d : Nat) (h : d < 10) : digitVal (digitChar d) = d := by
  interval_cases d <;> rfl

theorem digitChar_ne_underscore (d : Nat) (h : d < 10) : digitChar d ≠ '_' := by
  interval_cases d <;> decide

theorem digitChar_ne_minus (d : Nat) (h : d < 10) : digitChar d ≠ '-' := by
  interval_cases d <;> decide

theorem decimalVal_utoa (n : Nat) : decimalVal (utoa n) = n := by
  induction n using Nat.strong_induction_on with
  | _ n ih =>
    by_cases hn : n < 10
    · rw [utoa_lt n hn]
      simp [decimalVal, digitVal_digitChar n hn]
    · rw [utoa_ge n (by omega)]
      have h1 := ih (n / 10) (by omega)
      unfold decimalVal at h1 ⊢
      rw [List.foldl_append, h1]
      simp only [List.foldl_cons, List.foldl_nil]
      rw [digitVal_digitChar _ (Nat.mod_lt _ (by decide))]
      omega

theorem utoa_injective (a b : Nat) (h : utoa a = utoa b) : a = b := by
  have := congrArg decimalVal h
  rwa [decimalVal_utoa, decimalVal_utoa] at this

theorem utoa_ne_nil (n : Nat) : utoa n ≠ [] := by
  by_cases hn : n < 10
  · rw [utoa_lt n hn]; simp
  · rw [utoa_ge n (by omega)]; simp

theorem utoa_digits (n : Nat) : ∀ c ∈ utoa n, ∃ d, d < 10 ∧ c = digitChar d := by
  induction n using Nat.strong_induction_on with
  | _ n ih =>
    intro c hc
    by_cases hn : n < 10
    · rw [utoa_lt n hn] at hc
      simp only [List.mem_singleton] at hc
      exact ⟨n, hn, hc⟩
    · rw [utoa_ge n (by omega)] at hc
      rcases List.mem_append.mp hc with h | h
      · exact ih (n / 10) (by omega) c h
      · simp only [List.mem_singleton] at h
        exact ⟨n % 10, Nat.mod_lt _ (by decide), h⟩

theorem utoa_head_ne_minus (n : Nat) : ∀ t, utoa n ≠ '-' :: t := by
  intro t h
  have hm : '-' ∈ utoa n := by rw [h]; simp
  obtain ⟨d, hd, hc⟩ := utoa_digits n '-' hm
  exact digitChar_ne_minus d hd hc.symm

theorem Itoa_injective (a b : Int) (h : Itoa a = Itoa b) : a = b := by
  cases a with
  | ofNat a =>
    cases b with
    | ofNat b =>
      have h := congrArg String.data h
      simp only [Itoa] at h
      rw [utoa_injective a b h]
    | negSucc b =>
      have h := congrArg String.data h
      simp only [Itoa] at h
      exact absurd h (utoa_head_ne_minus a _)
  | negSucc a =>
    cases b with
    | ofNat b =>
      have h := congrArg String.data h
      simp only [Itoa] at h
      exact absurd h.symm (utoa_head_ne_minus b _)
    | negSucc b =>
      have h := congrArg String.data h
      simp only [Itoa, List.cons.injEq, true_and] at h
      have := utoa_injective _ _ h
      have hab : a = b := by omega
      rw [hab]

theorem Itoa_no_underscore (a : Int) : '_' ∉ (Itoa a).data := by
  intro hm
  cases a with
  | ofNat a =>
    simp only [Itoa] at hm
    obtain ⟨d, hd, hc⟩ := utoa_digits a '_' hm
    exact digitChar_ne_underscore d hd hc.symm
  | negSucc a =>
    simp only [Itoa, List.mem_cons] at hm
    rcases hm with h | h
    · exact absurd h (by decide)
    · obtain ⟨d, hd, hc⟩ := utoa_digits _ '_' h
      exact digitChar_ne_underscore d hd hc.symm


/-! ## Lemmas on strings -/

theorem data_append3 (a b c : String) : (a ++ b ++ c).data = a.data ++ (b.data ++ c.data) := by
  simp [String.data_append, List.append_assoc]

theorem append_left_cancel (p a b : String) (h : p ++ a = p ++ b) : a = b := by
  have h1 := congrArg String.data h
  simp only [String.data_append] at h1
  exact String.ext (List.append_cancel_left h1)

theorem append_right_cancel (a b q : String) (h : a ++ q = b ++ q) : a = b := by
  have h1 := congrArg String.data h
  simp only [String.data_append] at h1
  exact String.ext (List.append_cancel_right h1)

/-- Two texts that end in an underscore followed by underscore-free tails have
the same tail when they are equal. -/
theorem tail_after_last_underscore (p1 : List Char) :
    ∀ (p2 d1 d2 : List Char), '_' ∉ d1 → '_' ∉ d2 →
      p1 ++ '_' :: d1 = p2 ++ '_' :: d2 → d1 = d2 := by
  induction p1 with
  | nil =>
    intro p2 d1 d2 h1 h2 h
    cases p2 with
    | nil => simpa using h
    | cons c p2 =>
      simp only [List.nil_append, List.cons_append, List.cons.injEq] at h
      exact absurd (h.2 ▸ (by simp : '_' ∈ p2 ++ '_' :: d2)) h1
  | cons c p1 ih =>
    intro p2 d1 d2 h1 h2 h
    cases p2 with
    | nil =>
      simp only [List.nil_append, List.cons_append, List.cons.injEq] at h
      exact absurd (h.2 ▸ (by simp : '_' ∈ p1 ++ '_' :: d1)) h2
    | cons c2 p2 =>
      simp only [List.cons_append, List.cons.injEq] at h
      exact ih p2 d1 d2 h1 h2 h.2

/-! ## Lemmas on `generateFilename` -/

theorem generateFilename_suffix (c : archonCollection) (nameFlag : String) :
    ∃ p : String, generateFilename c nameFlag = p ++ "_" ++ Itoa c.ID := by
  unfold generateFilename
  by_cases h1 : nameFlag = ""
  · exact ⟨"ead", by simp [h1]⟩
  · simp only [h1, if_false]
    by_cases h2 : (nameParts c (Split nameFlag ',')).length = 0
    · exact ⟨"ead", by simp [h2]⟩
    · exact ⟨sanitizeFilename (Join (nameParts c (Split nameFlag ',')) "__"),
        by simp only [h2, if_false]⟩

theorem generateFilename_injective_ID (a b : archonCollection) (nameFlag : String)
    (h : generateFilename a nameFlag = generateFilename b nameFlag) : a.ID = b.ID := by
  obtain ⟨pa, ha⟩ := generateFilename_suffix a nameFlag
  obtain ⟨pb, hb⟩ := generateFilename_suffix b nameFlag
  rw [ha, hb] at h
  have h1 := congrArg String.data h
  rw [data_append3, data_append3] at h1
  have h2 := tail_after_last_underscore pa.data pb.data _ _
    (Itoa_no_underscore a.ID) (Itoa_no_underscore b.ID) h1
  exact Itoa_injective _ _ (String.ext h2)

theorem getEADStep_writeCalls (output nameflags : String) (r : archonCollection) (w : World)
    (p : String × String) (hp : p ∈ (getEADStep output nameflags r w).writeCalls) :
    p = (output ++ "/" ++ generateFilename r nameflags ++ ".xml", w.eadxml) := by
  obtain ⟨nr, dres, derr, body, rerr, werr⟩ := w
  cases nr <;> cases derr <;> cases dres <;> cases rerr <;> cases werr <;>
    simp only [getEADStep, Option.isSome_some, Option.isSome_none, if_true, if_false] at hp <;>
    (try split_ifs at hp) <;> simp_all

/-! ## Claims on `addURL` and `generateFilename` -/

/-- C7: `addURL` returns the host followed by the fixed query text and the
decimal ID; for a fixed host two records get the same URL exactly when they have
the same ID, whatever their other fields; host `http://127.0.0.1` and ID 2 give
the URL of the test. -/
theorem addURL_format (h : String) (a b : archonCollection) :
    addURL h a
        = h ++ "/index.php?p=collections/ead&templateset=ead&disabletheme=1&id=" ++ Itoa a.ID
    ∧ (addURL h a = addURL h b ↔ a.ID = b.ID)
    ∧ addURL "http://127.0.0.1" ⟨2, "VF00002", "Some Title $", ""⟩
        = "http://127.0.0.1/index.php?p=collections/ead&templateset=ead&disabletheme=1&id=2" := by
  refine ⟨rfl, ⟨fun he => ?_, fun he => ?_⟩, by decide⟩
  · unfold addURL at he
    exact Itoa_injective _ _ (append_left_cancel _ _ _ he)
  · unfold addURL
    rw [he]

/-- C3: for every name flag, every output directory and every two records with
different IDs, `generateFilename` gives different names and `getEAD` writes to
different paths; the name ends in an underscore followed by the decimal ID, which
contains no underscore. -/
theorem generateFilename_distinct (a b : archonCollection) (nameFlag output : String)
    (h : a.ID ≠ b.ID) :
    generateFilename a nameFlag ≠ generateFilename b nameFlag
    ∧ output ++ "/" ++ generateFilename a nameFlag ++ ".xml"
        ≠ output ++ "/" ++ generateFilename b nameFlag ++ ".xml"
    ∧ (∀ (wa wb : World) (pa pb : String × String),
        pa ∈ (getEADStep output nameFlag a wa).writeCalls →
        pb ∈ (getEADStep output nameFlag b wb).writeCalls → pa.1 ≠ pb.1)
    ∧ (∃ p : String, generateFilename a nameFlag = p ++ "_" ++ Itoa a.ID)
    ∧ '_' ∉ (Itoa a.ID).data := by
  have hne : generateFilename a nameFlag ≠ generateFilename b nameFlag :=
    fun he => h (generateFilename_injective_ID a b nameFlag he)
  have hpath : output ++ "/" ++ generateFilename a nameFlag ++ ".xml"
      ≠ output ++ "/" ++ generateFilename b nameFlag ++ ".xml" := by
    intro he
    exact hne (append_left_cancel _ _ _ (append_right_cancel _ _ _ he))
  refine ⟨hne, hpath, ?_, generateFilename_suffix a nameFlag, Itoa_no_underscore a.ID⟩
  intro wa wb pa pb ha hb
  rw [getEADStep_writeCalls _ _ _ _ _ ha, getEADStep_writeCalls _ _ _ _ _ hb]
  exact hpath

/-- C3, at two records that differ in the ID alone, with the flag `Title`. -/
theorem generateFilename_distinct_witness :
    (1 : Int) ≠ 2
    ∧ generateFilename ⟨1, "VF", "Maps", ""⟩ "Title" ≠ generateFilename ⟨2, "VF", "Maps", ""⟩ "Title" :=
  ⟨by decide,
    (generateFilename_distinct ⟨1, "VF", "Maps", ""⟩ ⟨2, "VF", "Maps", ""⟩ "Title" "out"
      (by decide)).1⟩

/-! ## `generateFilename` against its reference definition -/

theorem splitOn_ne_nil (sep : Char) (cs : List Char) : splitOn sep cs ≠ [] := by
  cases cs with
  | nil => simp [splitOn]
  | cons c cs =>
    unfold splitOn
    split
    · simp
    · split <;> simp

theorem splitOn_of_not_mem (sep : Char) (p : List Char) (hp : sep ∉ p) :
    splitOn sep p = [p] := by
  induction p with
  | nil => rfl
  | cons c p ih =>
    have hc : c ≠ sep := fun h => hp (by simp [h])
    have hp1 : sep ∉ p := fun h => hp (by simp [h])
    unfold splitOn
    rw [if_neg hc, ih hp1]

theorem splitOn_append_sep (sep : Char) (p q : List Char) (hp : sep ∉ p) :
    splitOn sep (p ++ sep :: q) = p :: splitOn sep q := by
  induction p with
  | nil => simp [splitOn]
  | cons c p ih =>
    have hc : c ≠ sep := fun h => hp (by simp [h])
    have hp1 : sep ∉ p := fun h => hp (by simp [h])
    rw [List.cons_append, splitOn, if_neg hc, ih hp1]

theorem name_no_comma (f : NameField) : ',' ∉ f.name.data := by
  cases f <;> decide

theorem name_ne_empty (f : NameField) : f.name.data ≠ [] := by
  cases f <;> decide

theorem splitOn_flagOf (f : NameField) (fs : List NameField) :
    splitOn ',' (flagOf (f :: fs)).data = (f :: fs).map (fun g => g.name.data) := by
  induction fs generalizing f with
  | nil => simpa [flagOf, Join] using splitOn_of_not_mem ',' f.name.data (name_no_comma f)
  | cons g gs ih =>
    have h := ih g
    unfold flagOf at h ⊢
    simp only [List.map_cons, Join] at h ⊢
    rw [data_append3]
    show splitOn ',' (f.name.data ++ ',' :: (Join (g.name :: List.map NameField.name gs) ",").data) = _
    rw [splitOn_append_sep ',' _ _ (name_no_comma f), h]

theorem flagOf_cons_ne_empty (f : NameField) (fs : List NameField) : flagOf (f :: fs) ≠ "" := by
  intro h
  have h1 := congrArg String.data h
  cases fs with
  | nil => exact name_ne_empty f (by simpa [flagOf, Join] using h1)
  | cons g gs =>
    unfold flagOf at h1
    simp only [List.map_cons, Join] at h1
    rw [data_append3] at h1
    have h2 : f.name.data = [] := (List.append_eq_nil.mp h1).1
    exact name_ne_empty f h2

theorem Split_flagOf (f : NameField) (fs : List NameField) :
    Split (flagOf (f :: fs)) ',' = (f :: fs).map NameField.name := by
  unfold Split
  rw [splitOn_flagOf, List.map_map]
  apply List.map_congr_left
  intro g _
  rfl

theorem fieldString_name (r : archonCollection) (f : NameField) :
    fieldString r f.name = f.value r := by
  cases f <;> simp [fieldString, NameField.name, NameField.value]

theorem nameParts_foldl (r : archonCollection) (vs acc : List String) :
    vs.foldl
      (fun parts v =>
        let partStr := fieldString r v
        if partStr = "" then parts else parts ++ [partStr]) acc
    = acc ++ (vs.map (fieldString r)).filter (fun p => p ≠ "") := by
  induction vs generalizing acc with
  | nil => simp
  | cons v vs ih =>
    simp only [List.foldl_cons, List.map_cons]
    rw [ih]
    by_cases hv : fieldString r v = ""
    · simp [hv]
    · simp [hv]

theorem nameParts_names (r : archonCollection) (fs : List NameField) :
    nameParts r (fs.map NameField.name)
      = (fs.map (NameField.value r)).filter (fun p => p ≠ "") := by
  unfold nameParts
  rw [nameParts_foldl, List.nil_append, List.map_map]
  congr 1
  apply List.map_congr_left
  intro f _
  exact fieldString_name r f

theorem generateFilename_refines (r : archonCollection) (fs : List NameField) :
    generateFilename r (flagOf fs) = generateFilenameSpec r fs := by
  cases fs with
  | nil => simp [generateFilename, generateFilenameSpec, flagOf, Join]
  | cons f fs =>
    have hne := flagOf_cons_ne_empty f fs
    unfold generateFilename generateFilenameSpec
    simp only [hne, if_false, false_or]
    rw [Split_flagOf, nameParts_names]
    by_cases hp : List.filter (fun p => decide (p ≠ "")) (List.map (NameField.value r) (f :: fs)) = []
    · simp [hp]
    · have hl : ¬ (List.filter (fun p => decide (p ≠ ""))
          (List.map (NameField.value r) (f :: fs))).length = 0 := by
        intro h0
        exact hp (List.length_eq_zero.mp h0)
      simp only [hp, hl, if_false]

/-- C5: on every record and every name flag that lists the fields
`CollectionIdentifier` and `Title` separated by commas, `generateFilename`
returns what the reference definition returns; the three names of the claim are
computed. -/
theorem generateFilename_eq_spec (r : archonCollection) (fs : List NameField) :
    generateFilename r (flagOf fs) = generateFilenameSpec r fs
    ∧ generateFilename ⟨1, "", "Some Title $", ""⟩ "Title" = "Some_Title___1"
    ∧ generateFilename ⟨1, "", "Some Title $", ""⟩ "" = "ead_1"
    ∧ generateFilename ⟨1, "VF00001", "Some Title $", ""⟩ "CollectionIdentifier,Title"
        = "VF00001__Some_Title___1"
    ∧ flagOf [NameField.CollectionIdentifier, NameField.Title] = "CollectionIdentifier,Title" :=
  ⟨generateFilename_refines r fs, by decide, by decide, by decide, by decide⟩

/-! ## `sanitizeFilename` -/

/-- C4, at the name `a]b`: the closing bracket stands in the pattern of
`sanitizeFilename` and yet is kept, here and in the file name derived from a
title; after a white-space character it disappears into the same underscore. -/
theorem sanitizeFilename_keeps_closing_bracket :
    sanitizeFilename "a]b" = "a]b"
    ∧ generateFilename ⟨1, "", "a]b", ""⟩ "Title" = "a]b_1"
    ∧ sanitizeFilename "a ]b" = "a_b" := by
  decide

/-! ## The rate ticker -/

/-- C9 at the throttle 1001, a limit that the help text of the flag `ratelimit`
does not exclude: the period `1000 / 1001` milliseconds is zero under integer
division and `time.NewTicker` panics, where the claim says the period is
strictly positive and the ticker is created. -/
theorem rateTicker_1001_panics :
    (1 : Int) ≤ 1001
    ∧ tickerPeriod 1001 = Except.ok 0
    ∧ rateTicker 1001 = Except.error "non-positive interval for NewTicker" :=
  ⟨by decide, rfl, rfl⟩

/-- For every throttle from 1 to 1000 the period computed in `main` is
`1000 / throttle` milliseconds, strictly positive, and the division and
`time.NewTicker` do not panic. -/
theorem rateTicker_valid (throttle : Int) (h1 : 1 ≤ throttle) (h2 : throttle ≤ 1000) :
    ∃ d : Int, tickerPeriod throttle = Except.ok d
      ∧ d = (1000 / throttle) * 1000000
      ∧ 0 < d
      ∧ rateTicker throttle = Except.ok d := by
  have h0 : throttle ≠ 0 := by omega
  have hq : Int.tdiv 1000 throttle = 1000 / throttle :=
    Int.tdiv_eq_ediv (by decide) (by omega)
  have hpos : 1 ≤ (1000 : Int) / throttle :=
    Int.le_ediv_of_mul_le (by omega) (by omega)
  refine ⟨(1000 / throttle) * 1000000, ?_, rfl, by omega, ?_⟩
  · simp [tickerPeriod, h0, hq]
  · have hd : ¬ (1000 / throttle) * 1000000 ≤ 0 := by omega
    simp [rateTicker, tickerPeriod, NewTicker, h0, hq, hd]

/-- The default throttle of four requests per second gives a ticker. -/
theorem rateTicker_default :
    ∃ d : Int, tickerPeriod 4 = Except.ok d ∧ d = (1000 / 4) * 1000000 ∧ 0 < d
      ∧ rateTicker 4 = Except.ok d :=
  rateTicker_valid 4 (by decide) (by decide)

/-- For every throttle above 1000 the period is zero and `time.NewTicker`
panics. -/
theorem rateTicker_above_1000 (throttle : Int) (h : 1000 < throttle) :
    tickerPeriod throttle = Except.ok 0
    ∧ rateTicker throttle = Except.error "non-positive interval for NewTicker" := by
  have h0 : throttle ≠ 0 := by omega
  have hq : Int.tdiv 1000 throttle = 0 := Int.tdiv_eq_zero_of_lt (by decide) h
  constructor
  · simp [tickerPeriod, h0, hq]
  · simp [rateTicker, tickerPeriod, NewTicker, h0, hq]

/-! ## `fieldMapper` -/

theorem scanHeader_none (u : Unicode) (v : String) (l : List String) :
    ∀ key : Nat, scanHeader u v l key = none ↔ ∀ c ∈ l, columnMatches u v c = false := by
  induction l with
  | nil => intro key; simp [scanHeader]
  | cons c l ih =>
    intro key
    unfold scanHeader
    by_cases hc : columnMatches u v c = true
    · simp [hc]
    · have hc1 : columnMatches u v c = false := by simpa using hc
      rw [if_neg hc, ih (key + 1)]
      simp [hc1]

theorem scanHeader_some (u : Unicode) (v : String) (l : List String) :
    ∀ key i : Nat, scanHeader u v l key = some i ↔
      ∃ j c, i = key + j ∧ l[j]? = some c ∧ columnMatches u v c = true
        ∧ ∀ m d, m < j → l[m]? = some d → columnMatches u v d = false := by
  induction l with
  | nil => intro key i; simp [scanHeader]
  | cons c l ih =>
    intro key i
    unfold scanHeader
    by_cases hc : columnMatches u v c = true
    · simp only [hc, if_true, Option.some.injEq]
      constructor
      · intro h
        exact ⟨0, c, by omega, by simp, hc, fun m d hm => by omega⟩
      · rintro ⟨j, d, hi, hj, hd, hfirst⟩
        cases j with
        | zero => omega
        | succ j =>
          have := hfirst 0 c (by omega) (by simp)
          rw [hc] at this
          exact absurd this (by decide)
    · rw [if_neg hc, ih (key + 1) i]
      constructor
      · rintro ⟨j, d, hi, hj, hd, hfirst⟩
        refine ⟨j + 1, d, by omega, by simpa using hj, hd, ?_⟩
        intro m e hm he
        cases m with
        | zero =>
          simp only [List.getElem?_cons_zero, Option.some.injEq] at he
          rw [← he]
          simpa using hc
        | succ m =>
          exact hfirst m e (by omega) (by simpa using he)
      · rintro ⟨j, d, hi, hj, hd, hfirst⟩
        cases j with
        | zero =>
          simp only [List.getElem?_cons_zero, Option.some.injEq] at hj
          rw [← hj] at hd
          exact absurd hd hc
        | succ j =>
          refine ⟨j, d, by omega, by simpa using hj, hd, ?_⟩
          intro m e hm he
          exact hfirst (m + 1) e (by omega) (by simpa using he)

theorem lookup_filter_append (m : FieldMap) (k : String) (v : Nat) (k1 : String) :
    List.lookup k1 (m.filter (fun p => p.1 != k) ++ [(k, v)])
      = if k1 = k then some v else List.lookup k1 m := by
  induction m with
  | nil =>
    by_cases h : k1 = k
    · simp [List.lookup, h]
    · have hb : (k1 == k) = false := by simpa using h
      simp [List.lookup, h, hb]
  | cons p m ih =>
    obtain ⟨pk, pv⟩ := p
    by_cases hp : pk = k
    · subst hp
      simp only [List.filter, bne_self_eq_false]
      rw [ih]
      by_cases h : k1 = pk
      · simp [h]
      · have hb : (k1 == pk) = false := by simpa using h
        simp [List.lookup, h, hb]
    · have hp1 : (pk != k) = true := by simpa using hp
      simp only [List.filter, hp1, List.cons_append, List.lookup]
      by_cases h1 : k1 = pk
      · subst h1
        simp [hp]
      · have : (k1 == pk) = false := by simpa using h1
        simp only [this]
        exact ih

theorem FieldMap.get?_set (m : FieldMap) (k : String) (v : Nat) (k1 : String) :
    FieldMap.get? (FieldMap.set m k v) k1 = if k1 = k then some v else FieldMap.get? m k1 :=
  lookup_filter_append m k v k1

/-- The map that `fieldMapper` builds, before the test for the key `ID`. -/
theorem fieldMap_get? (u : Unicode) (csvHeader : List String) (k : String) :
    FieldMap.get?
      (fields.foldl
        (fun fm v =>
          match scanHeader u v csvHeader 0 with
          | some key => FieldMap.set fm v key
          | none => fm)
        []) k
      = if k ∈ fields then scanHeader u k csvHeader 0 else none := by
  simp only [fields, List.foldl_cons, List.foldl_nil]
  have e0 : FieldMap.get? [] k = none := rfl
  cases h1 : scanHeader u "ID" csvHeader 0 <;>
    cases h2 : scanHeader u "CollectionIdentifier" csvHeader 0 <;>
    cases h3 : scanHeader u "Title" csvHeader 0 <;>
    simp only [FieldMap.get?_set, e0] <;>
    by_cases k1 : k = "ID" <;> by_cases k2 : k = "CollectionIdentifier" <;>
    by_cases k3 : k = "Title" <;> simp_all

theorem fieldMapper_eq (u : Unicode) (csvHeader : List String) :
    ∃ fm : FieldMap,
      (∀ k, FieldMap.get? fm k = if k ∈ fields then scanHeader u k csvHeader 0 else none)
      ∧ fieldMapper u csvHeader
          = if (scanHeader u "ID" csvHeader 0).isSome then Except.ok fm
            else Except.error (GoError.New "no ID column found in CSV") := by
  refine ⟨_, fieldMap_get? u csvHeader, ?_⟩
  unfold fieldMapper
  simp only [fieldMap_get? u csvHeader "ID"]
  have : "ID" ∈ fields := by decide
  simp only [this, if_true]

theorem scanHeader_isSome (u : Unicode) (v : String) (l : List String) :
    (scanHeader u v l 0).isSome ↔ ∃ c ∈ l, columnMatches u v c = true := by
  rw [← not_iff_not]
  simp only [Bool.not_eq_true, Option.not_isSome, Option.isNone_iff_eq_none, scanHeader_none,
    not_exists, not_and]

theorem scanHeader_lt (u : Unicode) (v : String) (l : List String) (i : Nat)
    (h : scanHeader u v l 0 = some i) :
    i < l.length ∧ ∃ c, l[i]? = some c ∧ columnMatches u v c = true
      ∧ ∀ m d, m < i → l[m]? = some d → columnMatches u v d = false := by
  obtain ⟨j, c, hi, hj, hc, hfirst⟩ := (scanHeader_some u v l 0 i).mp h
  have hij : i = j := by omega
  subst hij
  have hlt : i < l.length := by
    by_contra hge
    rw [List.getElem?_eq_none (by omega)] at hj
    exact absurd hj (by simp)
  exact ⟨hlt, c, hj, hc, hfirst⟩

/-- C6: `fieldMapper` returns the error `no ID column found in CSV` exactly when
no header cell, stripped of its leading and trailing non-letters, equals `ID`
under case folding, and a map otherwise; the keys of the map are those of `ID`,
`CollectionIdentifier` and `Title` that match some header cell, each mapped to
the index of the first matching cell, which lies within the header.  The two
headers of the claim are computed, and one whose first cell begins with a byte
order mark. -/
theorem fieldMapper_iff_ID_column (u : Unicode) (csvHeader : List String) :
    (fieldMapper u csvHeader = Except.error (GoError.New "no ID column found in CSV")
        ↔ ∀ c ∈ csvHeader, columnMatches u "ID" c = false)
    ∧ ((∃ fm, fieldMapper u csvHeader = Except.ok fm)
        ↔ ∃ c ∈ csvHeader, columnMatches u "ID" c = true)
    ∧ (∀ fm, fieldMapper u csvHeader = Except.ok fm →
        (∀ k, (FieldMap.get? fm k).isSome
            ↔ k ∈ ["ID", "CollectionIdentifier", "Title"]
              ∧ ∃ c ∈ csvHeader, columnMatches u k c = true)
        ∧ (∀ k i, FieldMap.get? fm k = some i →
            i < csvHeader.length
            ∧ ∃ c, csvHeader[i]? = some c ∧ columnMatches u k c = true
              ∧ ∀ m d, m < i → csvHeader[m]? = some d → columnMatches u k d = false))
    ∧ fieldMapper asciiUnicode ["id", "collectionidentifier", "title"]
        = Except.ok [("ID", 0), ("CollectionIdentifier", 1), ("Title", 2)]
    ∧ fieldMapper asciiUnicode ["CollectionIdentifier", "Title"]
        = Except.error (GoError.New "no ID column found in CSV")
    ∧ fieldMapper asciiUnicode ["\uFEFFID", "Title"] = Except.ok [("ID", 0), ("Title", 1)] := by
  obtain ⟨fm0, hget, hfm⟩ := fieldMapper_eq u csvHeader
  refine ⟨?_, ?_, ?_, rfl, rfl, rfl⟩
  · rw [hfm, ← scanHeader_none u "ID" csvHeader 0]
    cases hs : scanHeader u "ID" csvHeader 0 <;> simp
  · rw [hfm, ← scanHeader_isSome]
    cases hs : scanHeader u "ID" csvHeader 0 <;> simp
  · intro fm hok
    rw [hfm] at hok
    have hfm0 : fm0 = fm := by
      cases hs : scanHeader u "ID" csvHeader 0 with
      | none => simp [hs] at hok
      | some i =>
        simp only [hs, Option.isSome_some, if_true] at hok
        exact Except.ok.inj hok
    subst hfm0
    constructor
    · intro k
      rw [hget k]
      by_cases hk : k ∈ fields
      · simp only [hk, if_true, scanHeader_isSome]
        exact ⟨fun h => ⟨hk, h⟩, fun h => h.2⟩
      · simp only [hk, if_false]
        constructor
        · intro h; simp at h
        · intro h; exact absurd h.1 hk
    · intro k i hki
      rw [hget k] at hki
      by_cases hk : k ∈ fields
      · simp only [hk, if_true] at hki
        exact scanHeader_lt u k csvHeader i hki
      · simp [hk] at hki

/-! ## `csvToCollections` -/

theorem foldl_decimal_ge (ds : List Char) :
    ∀ n : Nat, n ≤ ds.foldl (fun n c => n * 10 + digitVal c) n := by
  induction ds with
  | nil => intro n; exact Nat.le_refl n
  | cons c ds ih =>
    intro n
    simp only [List.foldl_cons]
    have := ih (n * 10 + digitVal c)
    omega

/-- The digit loop returns the value of a digit text that fits `uint64`. -/
theorem parseUintLoop_ok (ds : List Char) :
    ∀ n : Nat, (∀ c ∈ ds, '0' ≤ c ∧ c ≤ '9') →
      ds.foldl (fun n c => n * 10 + digitVal c) n < 2 ^ 64 →
      parseUintLoop ds n = Except.ok (ds.foldl (fun n c => n * 10 + digitVal c) n) := by
  induction ds with
  | nil => intro n _ _; rfl
  | cons c ds ih =>
    intro n hdig hlt
    simp only [List.foldl_cons] at hlt ⊢
    have hc := hdig c (by simp)
    have hge := foldl_decimal_ge ds (n * 10 + digitVal c)
    have h1 : ¬ (2 ^ 64 ≤ n * 10 + digitVal c) := by omega
    unfold parseUintLoop
    simp only [hc.1, hc.2, decide_True, Bool.and_self, if_true, h1, if_false]
    exact ih _ (fun d hd => hdig d (by simp [hd])) hlt

theorem digit_ne_sign (c : Char) (h : '0' ≤ c) : c ≠ '-' ∧ c ≠ '+' := by
  constructor
  · intro e
    subst e
    exact absurd h (by decide)
  · intro e
    subst e
    exact absurd h (by decide)

/-- The model of `strconv.Atoi` accepts every decimal integer within the range
of `int` and returns the integer it denotes. -/
theorem Atoi_of_DecimalInt (s : String) (n : Int) (h : DecimalInt s n) :
    Atoi s = Except.ok n := by
  obtain ⟨ds, hne, hdig, hcase, hlo, hhi⟩ := h
  cases ds with
  | nil => exact absurd rfl hne
  | cons c t =>
    have hc := digit_ne_sign c (hdig c (by simp)).1
    rcases hcase with ⟨hs | hs, hn⟩ | ⟨hs, hn⟩
    · subst hn
      have hlt : decimalVal (c :: t) < 2 ^ 63 := by exact_mod_cast hhi
      have hp := parseUintLoop_ok (c :: t) 0 hdig (by unfold decimalVal at hlt; omega)
      have h3 : ¬ (2 ^ 63 ≤ decimalVal (c :: t)) := by omega
      unfold decimalVal at h3
      simp only [Atoi, hs, List.head?_cons, Option.some.injEq, hc.1, hc.2, or_self, if_false,
        decide_False, hp, Bool.not_false, Bool.true_and, Bool.false_and, Bool.or_false, h3,
        reduceCtorEq, Bool.false_eq_true]
      rfl
    · subst hn
      have hlt : decimalVal (c :: t) < 2 ^ 63 := by exact_mod_cast hhi
      have hp := parseUintLoop_ok (c :: t) 0 hdig (by unfold decimalVal at hlt; omega)
      have h3 : ¬ (2 ^ 63 ≤ decimalVal (c :: t)) := by omega
      unfold decimalVal at h3
      have hpm : ('+' : Char) ≠ '-' := by decide
      simp only [Atoi, hs, List.head?_cons, Option.some.injEq, hpm, or_true, false_or, if_true,
        List.tail_cons, decide_False, hp, Bool.not_false, Bool.true_and, Bool.false_and,
        Bool.or_false, h3, reduceCtorEq, Bool.false_eq_true, if_false]
      rfl
    · subst hn
      have hle : decimalVal (c :: t) ≤ 2 ^ 63 := by
        have : -(2 ^ 63 : Int) ≤ -((decimalVal (c :: t) : Nat) : Int) := hlo
        have h2 : ((decimalVal (c :: t) : Nat) : Int) ≤ 2 ^ 63 := by omega
        exact_mod_cast h2
      have hp := parseUintLoop_ok (c :: t) 0 hdig (by unfold decimalVal at hle; omega)
      have h3 : ¬ (2 ^ 63 < decimalVal (c :: t)) := by omega
      unfold decimalVal at h3
      simp only [Atoi, hs, List.head?_cons, true_or, if_true, List.tail_cons, decide_True, hp,
        Bool.not_true, Bool.false_and, Bool.true_and, Bool.false_or, h3, decide_False,
        reduceCtorEq, Bool.false_eq_true, if_false]
      rfl

/-- The error of the model of `strconv.Atoi` is the first one met in the text:
digits that leave `uint64` give the range error although a letter follows, and a
letter met earlier gives the syntax error. -/
theorem Atoi_first_error :
    Atoi "99999999999999999999x"
        = Except.error (GoError.NumError "Atoi" "99999999999999999999x" "value out of range")
    ∧ Atoi "12x" = Except.error (GoError.NumError "Atoi" "12x" "invalid syntax")
    ∧ Atoi "" = Except.error (GoError.NumError "Atoi" "" "invalid syntax")
    ∧ Atoi "-9223372036854775808" = Except.ok (-9223372036854775808)
    ∧ Atoi "+7" = Except.ok 7 :=
  ⟨rfl, rfl, rfl, rfl, rfl⟩

theorem forall₂_imp_mem {α β : Type} (P Q : α → β → Prop) (l : List α) (m : List β)
    (h : List.Forall₂ P l m) (himp : ∀ a ∈ l, ∀ b, P a b → Q a b) :
    List.Forall₂ Q l m := by
  induction h with
  | nil => exact List.Forall₂.nil
  | cons hab _ ih =>
    exact List.Forall₂.cons (himp _ (by simp) _ hab)
      (ih (fun a ha b hp => himp a (by simp [ha]) b hp))

theorem csvRowsLoop_ok (fieldMap : FieldMap) (n : Nat)
    (hid : FieldMap.get fieldMap "ID" < n)
    (hci : FieldMap.get fieldMap "CollectionIdentifier" < n)
    (ht : FieldMap.get fieldMap "Title" < n)
    (rows : List (List String)) :
    ∀ collections : List archonCollection,
      (∀ row ∈ rows, row.length = n) →
      (∀ row ∈ rows, ∃ m, Atoi (row.getD (FieldMap.get fieldMap "ID") "") = Except.ok m) →
      ∃ recs, csvRowsLoop fieldMap rows collections = CsvResult.ok (collections ++ recs)
        ∧ List.Forall₂ (rowRecord fieldMap) rows recs := by
  induction rows with
  | nil =>
    intro collections _ _
    exact ⟨[], by simp [csvRowsLoop], List.Forall₂.nil⟩
  | cons row rows ih =>
    intro collections hlen hnum
    have hl : row.length = n := hlen row (by simp)
    obtain ⟨m, hm⟩ := hnum row (by simp)
    have e1 : row[FieldMap.get fieldMap "ID"]? = some (row.getD (FieldMap.get fieldMap "ID") "") := by
      rw [List.getD_eq_getElem?_getD, List.getElem?_eq_getElem (by omega)]
      simp
    obtain ⟨ci, e2⟩ : ∃ ci, row[FieldMap.get fieldMap "CollectionIdentifier"]? = some ci :=
      ⟨_, List.getElem?_eq_getElem (by omega)⟩
    obtain ⟨title, e3⟩ : ∃ t, row[FieldMap.get fieldMap "Title"]? = some t :=
      ⟨_, List.getElem?_eq_getElem (by omega)⟩
    obtain ⟨recs, hrecs, hall⟩ :=
      ih (collections ++ [{ ID := m, CollectionIdentifier := ci, Title := title, URL := "" }])
        (fun r hr => hlen r (by simp [hr])) (fun r hr => hnum r (by simp [hr]))
    refine ⟨{ ID := m, CollectionIdentifier := ci, Title := title, URL := "" } :: recs, ?_, ?_⟩
    · unfold csvRowsLoop
      simp only [e1, hm, e2, e3]
      rw [hrecs]
      simp
    · exact List.Forall₂.cons ⟨⟨_, e1, hm⟩, e2, e3, rfl⟩ hall

theorem FieldMap.get_of_get? (m : FieldMap) (k : String) (i : Nat)
    (h : FieldMap.get? m k = some i) : FieldMap.get m k = i := by
  unfold FieldMap.get? at h
  unfold FieldMap.get
  rw [h]
  rfl

theorem FieldMap.get_of_get?_none (m : FieldMap) (k : String)
    (h : FieldMap.get? m k = none) : FieldMap.get m k = 0 := by
  unfold FieldMap.get? at h
  unfold FieldMap.get
  rw [h]
  rfl

/-- C10 fails at a decimal integer that no `int` holds: the table has an ID
column, its one data row has as many cells as the header and the decimal integer
2^63 in the ID column, and `csvToCollections` returns the range error of
`strconv.Atoi` with no record appended. -/
theorem csvToCollections_range_error :
    csvToCollections asciiUnicode [["ID", "Title"], ["9223372036854775808", "Maps"]] []
      = CsvResult.error []
          (GoError.NumError "Atoi" "9223372036854775808" "value out of range")
    ∧ fieldMapper asciiUnicode ["ID", "Title"] = Except.ok [("ID", 0), ("Title", 1)]
    ∧ ["9223372036854775808", "Maps"].length = ["ID", "Title"].length
    ∧ "9223372036854775808".data.all Char.isDigit = true
    ∧ decimalVal "9223372036854775808".data = 2 ^ 63 :=
  ⟨by decide, rfl, rfl, by decide, by decide⟩

/-- C10, amended: on a table whose header has its ID column at `idx` (the first
cell that matches `ID`) and whose data rows have as many cells as the header and,
in that column, a decimal integer within the range of `int`, `csvToCollections`
returns without error or panic and appends one record per data row, in row
order, the ID being the integer that the cell of the ID column denotes and the
two texts read at the indices that `fieldMapper` kept, all of them within the
row; when no header cell matches `CollectionIdentifier` (or `Title`), the index
is 0 and the field is the first cell of the row. -/
theorem csvToCollections_rows (u : Unicode) (header : List String)
    (rows : List (List String)) (collections : List archonCollection)
    (idx : Nat) (idName : String)
    (hcell : header[idx]? = some idName)
    (hmatch : columnMatches u "ID" idName = true)
    (hfirst : ∀ m d, m < idx → header[m]? = some d → columnMatches u "ID" d = false)
    (hlen : ∀ row ∈ rows, row.length = header.length)
    (hnum : ∀ row ∈ rows, ∃ n, DecimalInt (row.getD idx "") n) :
    ∃ (fm : FieldMap) (recs : List archonCollection),
      fieldMapper u header = Except.ok fm
      ∧ csvToCollections u (header :: rows) collections = CsvResult.ok (collections ++ recs)
      ∧ recs.length = rows.length
      ∧ List.Forall₂ (rowRecord fm) rows recs
      ∧ List.Forall₂ (fun row rec => DecimalInt (row.getD idx "") rec.ID) rows recs
      ∧ FieldMap.get fm "ID" = idx
      ∧ (∀ k ∈ ["ID", "CollectionIdentifier", "Title"], FieldMap.get fm k < header.length)
      ∧ (∀ k i, FieldMap.get? fm k = some i → FieldMap.get fm k = i)
      ∧ ((∀ c ∈ header, columnMatches u "CollectionIdentifier" c = false) →
          FieldMap.get? fm "CollectionIdentifier" = none
          ∧ List.Forall₂ (fun row rec => row[0]? = some rec.CollectionIdentifier) rows recs)
      ∧ ((∀ c ∈ header, columnMatches u "Title" c = false) →
          FieldMap.get? fm "Title" = none
          ∧ List.Forall₂ (fun row rec => row[0]? = some rec.Title) rows recs) := by
  have hscan : scanHeader u "ID" header 0 = some idx :=
    (scanHeader_some u "ID" header 0 idx).mpr ⟨idx, idName, by omega, hcell, hmatch, hfirst⟩
  obtain ⟨fm, hget, hfm⟩ := fieldMapper_eq u header
  simp only [hscan, Option.isSome_some, if_true] at hfm
  have hidx : idx < header.length := (scanHeader_lt u "ID" header idx hscan).1
  have hgetID : FieldMap.get fm "ID" = idx := by
    apply FieldMap.get_of_get?
    rw [hget "ID"]
    simpa [fields] using hscan
  have hbound : ∀ k ∈ ["ID", "CollectionIdentifier", "Title"],
      FieldMap.get fm k < header.length := by
    intro k hk
    have hk1 : k ∈ fields := hk
    cases hs : scanHeader u k header 0 with
    | none =>
      have : FieldMap.get? fm k = none := by rw [hget k]; simp [hk1, hs]
      rw [FieldMap.get_of_get?_none fm k this]
      omega
    | some i =>
      have : FieldMap.get? fm k = some i := by rw [hget k]; simp [hk1, hs]
      rw [FieldMap.get_of_get? fm k i this]
      exact (scanHeader_lt u k header i hs).1
  obtain ⟨recs, hrecs, hall⟩ :=
    csvRowsLoop_ok fm header.length (hbound "ID" (by decide))
      (hbound "CollectionIdentifier" (by decide)) (hbound "Title" (by decide)) rows collections
      hlen
      (by
        rw [hgetID]
        intro row hrow
        obtain ⟨n, hn⟩ := hnum row hrow
        exact ⟨n, Atoi_of_DecimalInt _ n hn⟩)
  have hdec : List.Forall₂ (fun row rec => DecimalInt (row.getD idx "") rec.ID) rows recs := by
    apply forall₂_imp_mem (rowRecord fm) _ rows recs hall
    intro row hrow rec hrr
    obtain ⟨n, hn⟩ := hnum row hrow
    obtain ⟨idCell, hc, ha⟩ := hrr.1
    rw [hgetID] at hc
    have hcell1 : row.getD idx "" = idCell := by
      rw [List.getD_eq_getElem?_getD, hc]
      rfl
    have h1 := Atoi_of_DecimalInt _ n hn
    rw [hcell1, ha] at h1
    have h2 : rec.ID = n := Except.ok.inj h1
    rw [h2]
    exact hn
  refine ⟨fm, recs, hfm, ?_, hall.length_eq.symm, hall, hdec, hgetID, hbound,
    fun k i h => FieldMap.get_of_get? fm k i h, ?_, ?_⟩
  · simp only [csvToCollections, hfm]
    exact hrecs
  · intro hno
    have hnone : FieldMap.get? fm "CollectionIdentifier" = none := by
      rw [hget "CollectionIdentifier"]
      have := (scanHeader_none u "CollectionIdentifier" header 0).mpr hno
      simp [fields, this]
    refine ⟨hnone, hall.imp ?_⟩
    intro row rec hrr
    have h0 := FieldMap.get_of_get?_none fm _ hnone
    have := hrr.2.1
    rwa [h0] at this
  · intro hno
    have hnone : FieldMap.get? fm "Title" = none := by
      rw [hget "Title"]
      have := (scanHeader_none u "Title" header 0).mpr hno
      simp [fields, this]
    refine ⟨hnone, hall.imp ?_⟩
    intro row rec hrr
    have h0 := FieldMap.get_of_get?_none fm _ hnone
    have := hrr.2.2.1
    rwa [h0] at this

/-- C10, amended, on a table with the columns `Title` and `id` and two data
rows: the collection identifier of each record is the first cell of its row. -/
theorem csvToCollections_rows_witness :
    ∃ (fm : FieldMap) (recs : List archonCollection),
      fieldMapper asciiUnicode ["Title", "id"] = Except.ok fm
      ∧ csvToCollections asciiUnicode [["Title", "id"], ["Maps", "7"], ["Letters", "8"]] []
          = CsvResult.ok ([] ++ recs)
      ∧ recs.length = [["Maps", "7"], ["Letters", "8"]].length
      ∧ List.Forall₂ (rowRecord fm) [["Maps", "7"], ["Letters", "8"]] recs
      ∧ List.Forall₂ (fun row rec => DecimalInt (row.getD 1 "") rec.ID)
          [["Maps", "7"], ["Letters", "8"]] recs
      ∧ FieldMap.get fm "ID" = 1
      ∧ (∀ k ∈ ["ID", "CollectionIdentifier", "Title"],
          FieldMap.get fm k < ["Title", "id"].length)
      ∧ (∀ k i, FieldMap.get? fm k = some i → FieldMap.get fm k = i)
      ∧ ((∀ c ∈ ["Title", "id"], columnMatches asciiUnicode "CollectionIdentifier" c = false) →
          FieldMap.get? fm "CollectionIdentifier" = none
          ∧ List.Forall₂ (fun row rec => row[0]? = some rec.CollectionIdentifier)
              [["Maps", "7"], ["Letters", "8"]] recs)
      ∧ ((∀ c ∈ ["Title", "id"], columnMatches asciiUnicode "Title" c = false) →
          FieldMap.get? fm "Title" = none
          ∧ List.Forall₂ (fun row rec => row[0]? = some rec.Title)
              [["Maps", "7"], ["Letters", "8"]] recs) :=
  csvToCollections_rows asciiUnicode ["Title", "id"] [["Maps", "7"], ["Letters", "8"]] [] 1 "id"
    rfl (by decide)
    (by
      intro m d hm hd
      have hm0 : m = 0 := by omega
      subst hm0
      simp only [List.getElem?_cons_zero, Option.some.injEq] at hd
      subst hd
      decide)
    (by decide)
    (by
      intro row hrow
      simp only [List.mem_cons, List.mem_singleton, List.not_mem_nil, or_false] at hrow
      rcases hrow with h | h
      · subst h
        exact ⟨7, ['7'], by simp, by decide, Or.inl ⟨Or.inl rfl, rfl⟩, by decide, by decide⟩
      · subst h
        exact ⟨8, ['8'], by simp, by decide, Or.inl ⟨Or.inl rfl, rfl⟩, by decide, by decide⟩)

/-- The table of the C10 witness, evaluated. -/
theorem csvToCollections_missing_column_eval :
    csvToCollections asciiUnicode [["Title", "id"], ["Maps", "7"], ["Letters", "8"]] []
      = CsvResult.ok [⟨7, "Maps", "Maps", ""⟩, ⟨8, "Letters", "Letters", ""⟩] := by
  decide

/-! ## One iteration of `getEAD` -/

/-- An iteration that goes on to the next one has sent the job back and no row,
or one row and no job. -/
theorem getEADStep_next (output nameflags : String) (r : archonCollection) (w : World)
    (h : (getEADStep output nameflags r w).exit = Exit.next) :
    ((getEADStep output nameflags r w).requeued = [r]
        ∧ (getEADStep output nameflags r w).rows = []
        ∧ (getEADStep output nameflags r w).writeCalls = [])
    ∨ ((getEADStep output nameflags r w).requeued = []
        ∧ ∃ row, (getEADStep output nameflags r w).rows = [row]) := by
  obtain ⟨nr, dres, derr, body, rerr, werr⟩ := w
  cases nr <;> cases derr <;> cases dres <;> cases rerr <;> cases werr <;>
    simp only [getEADStep, Option.isSome_some, Option.isSome_none, if_true, if_false] at h ⊢ <;>
    (try split_ifs at h ⊢) <;> simp_all

/-- An iteration never sends both a job and a row, and sends neither only when
it ends the process. -/
theorem getEADStep_abort (output nameflags : String) (r : archonCollection) (w : World)
    (h : (getEADStep output nameflags r w).exit ≠ Exit.next) :
    (getEADStep output nameflags r w).requeued = []
      ∧ (getEADStep output nameflags r w).rows = [] := by
  obtain ⟨nr, dres, derr, body, rerr, werr⟩ := w
  cases nr <;> cases derr <;> cases dres <;> cases rerr <;> cases werr <;>
    simp only [getEADStep, Option.isSome_some, Option.isSome_none, if_true, if_false] at h ⊢ <;>
    (try split_ifs at h ⊢) <;> simp_all

/-- The iteration ends in `log.Fatal` exactly when `ioutil.WriteFile` is reached
and fails. -/
theorem getEADStep_fatal_iff (output nameflags : String) (r : archonCollection) (w : World) :
    (getEADStep output nameflags r w).exit = Exit.fatal ↔
      (w.newRequestErr = none ∧ w.doErr = none ∧ w.doRes.isSome = true ∧ w.readErr = none
        ∧ Contains w.eadxml sentinelText = false ∧ w.writeErr.isSome = true) := by
  obtain ⟨nr, dres, derr, body, rerr, werr⟩ := w
  cases nr <;> cases derr <;> cases dres <;> cases rerr <;> cases werr <;>
    simp only [getEADStep, Option.isSome_some, Option.isSome_none, if_true, if_false] <;>
    (try split_ifs) <;> simp_all

/-- A timeout of the request or of the reading of the body sends the same job
back on the queue and nothing else. -/
theorem getEADStep_timeout (output nameflags : String) (r : archonCollection) (w : World)
    (err : String) (hreq : w.newRequestErr = none)
    (herr : w.doErr = some err
      ∨ (w.doErr = none ∧ w.doRes.isSome = true ∧ w.readErr = some err))
    (ht : Contains err deadlineText = true) :
    getEADStep output nameflags r w
      = { requeued := [r], rows := [], writeCalls := [], exit := Exit.next } := by
  obtain ⟨nr, dres, derr, body, rerr, werr⟩ := w
  cases nr <;> cases derr <;> cases dres <;> cases rerr <;> cases werr <;>
    simp only [getEADStep, Option.isSome_some, Option.isSome_none, if_true, if_false] <;>
    simp_all

/-- A transport error that is no timeout and comes without a response ends the
iteration in a panic, before any row is sent. -/
theorem getEADStep_nil_response (output nameflags : String) (r : archonCollection) (w : World)
    (err : String) (hreq : w.newRequestErr = none) (herr : w.doErr = some err)
    (hres : w.doRes = none) (ht : Contains err deadlineText = false) :
    getEADStep output nameflags r w
      = { requeued := [], rows := [], writeCalls := [], exit := Exit.panic } := by
  obtain ⟨nr, dres, derr, body, rerr, werr⟩ := w
  simp only at hreq herr hres
  subst hreq herr hres
  simp [getEADStep, ht]

/-- C2 at a refused connection: `http.DefaultClient.Do` returns no response and
an error that is no timeout; the iteration panics on `res.Status`, no row is
sent and the worker does not go on to the next job. -/
theorem getEADStep_connection_refused_panics :
    Contains "Get \"http://127.0.0.1/index.php?p=collections/ead&templateset=ead&disabletheme=1&id=1\": dial tcp 127.0.0.1:80: connect: connection refused"
        deadlineText = false
    ∧ getEADStep "./ead_output" ""
        ⟨1, "VF00001", "Some Title $",
          "http://127.0.0.1/index.php?p=collections/ead&templateset=ead&disabletheme=1&id=1"⟩
        { newRequestErr := none, doRes := none,
          doErr := some "Get \"http://127.0.0.1/index.php?p=collections/ead&templateset=ead&disabletheme=1&id=1\": dial tcp 127.0.0.1:80: connect: connection refused",
          eadxml := "", readErr := none, writeErr := none }
      = { requeued := [], rows := [], writeCalls := [], exit := Exit.panic } := by
  decide

/-- C8 fails when the file cannot be written: the body is read, it does not
contain the sentinel, `ioutil.WriteFile` returns an error, and the iteration ends
in `log.Fatal` with no row sent. -/
theorem getEADStep_write_failure_no_row :
    Contains "<ead><eadheader/></ead>" sentinelText = false
    ∧ getEADStep "./ead_output" "Title"
        ⟨7, "VF00007", "Maps", "http://127.0.0.1/index.php?p=collections/ead&templateset=ead&disabletheme=1&id=7"⟩
        { newRequestErr := none, doRes := some ⟨"200 OK"⟩, doErr := none,
          eadxml := "<ead><eadheader/></ead>", readErr := none,
          writeErr := some "open ./ead_output/Maps_7.xml: permission denied" }
      = { requeued := [], rows := [],
          writeCalls := [("./ead_output/Maps_7.xml", "<ead><eadheader/></ead>")],
          exit := Exit.fatal } := by
  decide

/-- A body read without error that contains the sentinel: one row with the
error detail, no call of `ioutil.WriteFile`, no job sent back. -/
theorem getEADStep_sentinel (output nameflags : String) (r : archonCollection) (w : World)
    (res : Response) (hreq : w.newRequestErr = none) (hdo : w.doErr = none)
    (hres : w.doRes = some res) (hread : w.readErr = none)
    (hs : Contains w.eadxml sentinelText = true) :
    getEADStep output nameflags r w
      = { requeued := [],
          rows := [[r.URL, r.CollectionIdentifier, res.Status, "Request Error: " ++ w.eadxml]],
          writeCalls := [], exit := Exit.next } := by
  obtain ⟨nr, dres, derr, body, rerr, werr⟩ := w
  simp only at hreq hdo hres hread hs
  subst hreq hdo hres hread
  simp [getEADStep, hs]

/-- A body read without error and without the sentinel, written without error:
one call of `ioutil.WriteFile`, one row with an empty error detail. -/
theorem getEADStep_written (output nameflags : String) (r : archonCollection) (w : World)
    (res : Response) (hreq : w.newRequestErr = none) (hdo : w.doErr = none)
    (hres : w.doRes = some res) (hread : w.readErr = none)
    (hs : Contains w.eadxml sentinelText = false) (hw : w.writeErr = none) :
    getEADStep output nameflags r w
      = { requeued := [],
          rows := [[r.URL, r.CollectionIdentifier, res.Status, ""]],
          writeCalls := [(output ++ "/" ++ generateFilename r nameflags ++ ".xml", w.eadxml)],
          exit := Exit.next } := by
  obtain ⟨nr, dres, derr, body, rerr, werr⟩ := w
  simp only at hreq hdo hres hread hs hw
  subst hreq hdo hres hread hw
  simp [getEADStep, hs]

/-- A body read without error and without the sentinel that cannot be written:
one call of `ioutil.WriteFile`, then `log.Fatal`, no row. -/
theorem getEADStep_write_failed (output nameflags : String) (r : archonCollection) (w : World)
    (res : Response) (hreq : w.newRequestErr = none) (hdo : w.doErr = none)
    (hres : w.doRes = some res) (hread : w.readErr = none)
    (hs : Contains w.eadxml sentinelText = false) (hw : w.writeErr ≠ none) :
    getEADStep output nameflags r w
      = { requeued := [], rows := [],
          writeCalls := [(output ++ "/" ++ generateFilename r nameflags ++ ".xml", w.eadxml)],
          exit := Exit.fatal } := by
  obtain ⟨nr, dres, derr, body, rerr, werr⟩ := w
  simp only at hreq hdo hres hread hs hw
  subst hreq hdo hres hread
  cases werr with
  | none => exact absurd rfl hw
  | some e => simp [getEADStep, hs]

theorem request_error_ne_empty (detail : String) : "Request Error: " ++ detail ≠ "" := by
  intro he
  have := congrArg String.length he
  simp [String.length_append] at this
  have h2 : "Request Error: ".length = 15 := by decide
  omega

/-- C8, amended: when the body is read without error, a body that contains the
sentinel leads to no call of `ioutil.WriteFile`, to one row with the HTTP status
and a non-empty error detail, and to no re-enqueue; a body without the sentinel
leads to one call of `ioutil.WriteFile` with the body as data and the path made
of the output directory, the generated name and `.xml`, then, if the call
succeeds, to one row with an empty error detail and no re-enqueue, and, if it
fails, to `log.Fatal` with no row. -/
theorem getEADStep_body (output nameflags : String) (r : archonCollection) (w : World)
    (res : Response) (hreq : w.newRequestErr = none) (hdo : w.doErr = none)
    (hres : w.doRes = some res) (hread : w.readErr = none) :
    (Contains w.eadxml sentinelText = true →
      getEADStep output nameflags r w
          = { requeued := [],
              rows := [[r.URL, r.CollectionIdentifier, res.Status, "Request Error: " ++ w.eadxml]],
              writeCalls := [], exit := Exit.next }
        ∧ "Request Error: " ++ w.eadxml ≠ "")
    ∧ (Contains w.eadxml sentinelText = false → w.writeErr = none →
      getEADStep output nameflags r w
          = { requeued := [],
              rows := [[r.URL, r.CollectionIdentifier, res.Status, ""]],
              writeCalls :=
                [(output ++ "/" ++ generateFilename r nameflags ++ ".xml", w.eadxml)],
              exit := Exit.next })
    ∧ (Contains w.eadxml sentinelText = false → w.writeErr ≠ none →
      getEADStep output nameflags r w
          = { requeued := [], rows := [],
              writeCalls :=
                [(output ++ "/" ++ generateFilename r nameflags ++ ".xml", w.eadxml)],
              exit := Exit.fatal }) :=
  ⟨fun hs => ⟨getEADStep_sentinel output nameflags r w res hreq hdo hres hread hs,
      request_error_ne_empty w.eadxml⟩,
    fun hs hw => getEADStep_written output nameflags r w res hreq hdo hres hread hs hw,
    fun hs hw => getEADStep_write_failed output nameflags r w res hreq hdo hres hread hs hw⟩

/-- C8, amended, at a body that contains the sentinel. -/
theorem getEADStep_body_witness :
    getEADStep "out" "" ⟨9, "VF9", "Maps", "http://h/x?id=9"⟩
        { newRequestErr := none, doRes := some ⟨"200 OK"⟩, doErr := none,
          eadxml := "Could not load Collection: Collection ID 9 not found",
          readErr := none, writeErr := none }
        = { requeued := [],
            rows := [["http://h/x?id=9", "VF9", "200 OK",
              "Request Error: " ++ "Could not load Collection: Collection ID 9 not found"]],
            writeCalls := [], exit := Exit.next }
      ∧ "Request Error: " ++ "Could not load Collection: Collection ID 9 not found" ≠ "" :=
  (getEADStep_body "out" "" ⟨9, "VF9", "Maps", "http://h/x?id=9"⟩
      { newRequestErr := none, doRes := some ⟨"200 OK"⟩, doErr := none,
        eadxml := "Could not load Collection: Collection ID 9 not found",
        readErr := none, writeErr := none }
      ⟨"200 OK"⟩ rfl rfl rfl rfl).1 (by decide)

/-! ## The fetch engine: the counting invariant -/

theorem sum_map_set (f : Worker → Nat) (l : List Worker) :
    ∀ (i : Nat) (a b : Worker), l[i]? = some a →
      ((l.set i b).map f).sum + f a = (l.map f).sum + f b := by
  induction l with
  | nil => intro i a b h; simp at h
  | cons x l ih =>
    intro i a b h
    cases i with
    | zero =>
      simp only [List.getElem?_cons_zero, Option.some.injEq] at h
      subst h
      simp only [List.set_cons_zero, List.map_cons, List.sum_cons]
      omega
    | succ i =>
      simp only [List.getElem?_cons_succ] at h
      have := ih i a b h
      simp only [List.set_cons_succ, List.map_cons, List.sum_cons]
      omega

/-- The quantity that the steps of the engine keep: rows received or offered,
plus jobs not yet produced, held or offered. -/
theorem step_count (cfg : Config) (s s1 : State) (a : Action)
    (h : step cfg s a = some s1) :
    s1.emitted + s1.pending = s.emitted + s.pending ∧ s1.total = s.total := by
  cases a with
  | feed i =>
    simp only [step] at h
    split at h
    · rename_i v rest hh ht hw
      simp only [Option.some.injEq] at h
      subst h
      have := sum_map_set Worker.jobs s.workers i _
        (Worker.attempting { v with URL := addURL cfg.host v }) hw
      have h2 := sum_map_set Worker.rowsOut s.workers i _
        (Worker.attempting { v with URL := addURL cfg.host v }) hw
      simp only [Worker.jobs, Worker.rowsOut, List.length_nil] at this h2
      simp only [State.emitted, State.pending, ht, List.length_cons]
      refine ⟨?_, trivial⟩
      omega
    · simp at h
  | attempt i w =>
    simp only [step] at h
    split at h
    · rename_i r hh hw
      split at h
      · rename_i hexit
        simp only [Option.some.injEq] at h
        subst h
        have hj := sum_map_set Worker.jobs s.workers i _
          (Worker.sending (getEADStep cfg.output cfg.nameformat r w).requeued
            (getEADStep cfg.output cfg.nameformat r w).rows) hw
        have hr := sum_map_set Worker.rowsOut s.workers i _
          (Worker.sending (getEADStep cfg.output cfg.nameformat r w).requeued
            (getEADStep cfg.output cfg.nameformat r w).rows) hw
        simp only [Worker.jobs, Worker.rowsOut] at hj hr
        simp only [State.emitted, State.pending]
        refine ⟨?_, trivial⟩
        have hl : (getEADStep cfg.output cfg.nameformat r w).requeued.length
            + (getEADStep cfg.output cfg.nameformat r w).rows.length = 1 := by
          rcases getEADStep_next cfg.output cfg.nameformat r w hexit with
            ⟨h1, h2, _⟩ | ⟨h1, row, h2⟩
          · rw [h1, h2]; rfl
          · rw [h1, h2]; rfl
        omega
      · simp only [Option.some.injEq] at h
        subst h
        exact ⟨rfl, rfl⟩
    · simp at h
  | handoff i k =>
    simp only [step] at h
    split at h
    · rename_i r requeued rows hh hi hk
      simp only [Option.some.injEq] at h
      subst h
      have hik : i ≠ k := by
        intro e
        subst e
        rw [hi] at hk
        simp at hk
      have hk1 : (s.workers.set i (Worker.sending requeued rows))[k]?
          = some (Worker.sending [] []) := by
        rw [List.getElem?_set_ne hik]
        exact hk
      have j1 := sum_map_set Worker.jobs s.workers i _ (Worker.sending requeued rows) hi
      have r1 := sum_map_set Worker.rowsOut s.workers i _ (Worker.sending requeued rows) hi
      have j2 := sum_map_set Worker.jobs _ k _ (Worker.attempting r) hk1
      have r2 := sum_map_set Worker.rowsOut _ k _ (Worker.attempting r) hk1
      simp only [Worker.jobs, Worker.rowsOut, List.length_cons, List.length_nil] at j1 r1 j2 r2
      simp only [State.emitted, State.pending]
      refine ⟨?_, trivial⟩
      omega
    · simp at h
  | collect i =>
    simp only [step] at h
    split at h
    · rename_i requeued row rows hh hw
      split at h
      · simp only [Option.some.injEq] at h
        subst h
        have j1 := sum_map_set Worker.jobs s.workers i _ (Worker.sending requeued rows) hw
        have r1 := sum_map_set Worker.rowsOut s.workers i _ (Worker.sending requeued rows) hw
        simp only [Worker.jobs, Worker.rowsOut, List.length_cons] at j1 r1
        simp only [State.emitted, State.pending, List.length_append, List.length_cons,
          List.length_nil]
        refine ⟨?_, trivial⟩
        omega
      · simp at h
    · simp at h

theorem run_count (cfg : Config) (acts : List Action) :
    ∀ s s1 : State, run cfg acts s = some s1 →
      s1.emitted + s1.pending = s.emitted + s.pending ∧ s1.total = s.total := by
  induction acts with
  | nil =>
    intro s s1 h
    simp only [run, Option.some.injEq] at h
    subst h
    exact ⟨rfl, rfl⟩
  | cons a acts ih =>
    intro s s1 h
    simp only [run] at h
    cases hs : step cfg s a with
    | none => simp [hs] at h
    | some s2 =>
      simp only [hs] at h
      have h1 := step_count cfg s s2 a hs
      have h2 := ih s2 s1 h
      exact ⟨by omega, by omega⟩

theorem init_count (cfg : Config) (arCollections : List archonCollection) :
    (State.init cfg arCollections).emitted + (State.init cfg arCollections).pending
      = arCollections.length
    ∧ (State.init cfg arCollections).total = arCollections.length := by
  simp [State.init, State.emitted, State.pending, Worker.idle, Worker.jobs, Worker.rowsOut]

theorem reachable_count (cfg : Config) (arCollections : List archonCollection) (s : State)
    (h : Reachable cfg arCollections s) :
    s.emitted + s.pending = arCollections.length ∧ s.total = arCollections.length := by
  obtain ⟨acts, hrun⟩ := h
  have h1 := run_count cfg acts _ s hrun
  have h2 := init_count cfg arCollections
  exact ⟨by omega, by omega⟩

theorem worker_idle_of_zero (w : Worker) (hj : w.jobs = 0) (hr : w.rowsOut = 0) :
    w = Worker.idle := by
  cases w with
  | attempting r => simp [Worker.jobs] at hj
  | sending q rows =>
    simp only [Worker.jobs, Worker.rowsOut, List.length_eq_zero] at hj hr
    subst hj hr
    rfl

/-! ## The fetch engine: runs that complete -/

theorem run_append (cfg : Config) (a b : List Action) :
    ∀ s : State, run cfg (a ++ b) s = (run cfg a s).bind (run cfg b) := by
  induction a with
  | nil => intro s; rfl
  | cons x a ih =>
    intro s
    simp only [List.cons_append, run]
    cases step cfg s x with
    | none => rfl
    | some s1 => exact ih s1

theorem getEADStep_timeoutWorld (output nameflags : String) (r : archonCollection) :
    getEADStep output nameflags r timeoutWorld
      = { requeued := [r], rows := [], writeCalls := [], exit := Exit.next } :=
  getEADStep_timeout output nameflags r timeoutWorld "context deadline exceeded" rfl
    (Or.inl rfl) (by decide)

theorem getEADStep_okWorld (output nameflags : String) (r : archonCollection) :
    getEADStep output nameflags r okWorld
      = { requeued := [], rows := [okRow r],
          writeCalls := [(output ++ "/" ++ generateFilename r nameflags ++ ".xml", "<ead/>")],
          exit := Exit.next } :=
  getEADStep_written output nameflags r okWorld ⟨"200 OK"⟩ rfl rfl rfl rfl (by decide) rfl

theorem run_retryActs (cfg : Config) (k : Nat) :
    ∀ (p : Nat) (todo : List archonCollection) (j : archonCollection) (rest : List Worker)
      (res : List (List String)) (total retries : Nat),
      p ≤ 1 → res.length < total →
      run cfg (retryActs k p)
          { todo := todo, workers := pairAt p (Worker.attempting j) rest, resReturns := res,
            total := total, retries := retries, halted := false }
        = some
          { todo := todo, workers := Worker.idle :: Worker.idle :: rest,
            resReturns := res ++ [okRow j], total := total, retries := retries + k,
            halted := false } := by
  induction k with
  | zero =>
    intro p todo j rest res total retries hp hres
    have hp01 : p = 0 ∨ p = 1 := by omega
    rcases hp01 with h | h <;> subst h <;>
      simp [retryActs, run, step, pairAt, getEADStep_okWorld, Worker.idle, hres]
  | succ k ih =>
    intro p todo j rest res total retries hp hres
    have hp01 : p = 0 ∨ p = 1 := by omega
    rcases hp01 with h | h
    · subst h
      have := ih 1 todo j rest res total (retries + 1) (by omega) hres
      simp only [pairAt] at this
      simp [retryActs, run, step, pairAt, getEADStep_timeoutWorld, Worker.idle] at this ⊢
      rw [this]
      simp only [Option.some.injEq, State.mk.injEq, and_true, true_and]
      omega
    · subst h
      have := ih 0 todo j rest res total (retries + 1) (by omega) hres
      simp only [pairAt] at this
      simp [retryActs, run, step, pairAt, getEADStep_timeoutWorld, Worker.idle] at this ⊢
      rw [this]
      simp only [Option.some.injEq, State.mk.injEq, and_true, true_and]
      omega

theorem run_restActs (cfg : Config) (recs : List archonCollection) :
    ∀ (rest : List Worker) (res : List (List String)) (total retries : Nat),
      res.length + recs.length ≤ total →
      run cfg (restActs recs.length)
          { todo := recs, workers := Worker.idle :: rest, resReturns := res,
            total := total, retries := retries, halted := false }
        = some
          { todo := [], workers := Worker.idle :: rest,
            resReturns := res ++ recs.map (fun v => okRow { v with URL := addURL cfg.host v }),
            total := total, retries := retries, halted := false } := by
  induction recs with
  | nil =>
    intro rest res total retries _
    simp [restActs, run]
  | cons v recs ih =>
    intro rest res total retries hlen
    simp only [List.length_cons] at hlen
    have hres : res.length < total := by omega
    have := ih rest (res ++ [okRow { v with URL := addURL cfg.host v }]) total retries
      (by simp only [List.length_append, List.length_cons, List.length_nil]; omega)
    simp [restActs, run, step, getEADStep_okWorld, Worker.idle, hres] at this ⊢
    rw [this]

/-- For every list of records, every number of retries and at least two workers
there is a run in which the first record is retried that many times and every
record gets its row. -/
theorem run_schedule (cfg : Config) (arCollections : List archonCollection) (k : Nat)
    (hw : 2 ≤ cfg.workers) (hk : arCollections ≠ [] ∨ k = 0) :
    ∃ s : State, run cfg (schedule arCollections.length k) (State.init cfg arCollections) = some s
      ∧ s.retries = k ∧ s.resReturns.length = arCollections.length ∧ s.halted = false
      ∧ s.resReturns = arCollections.map (fun v => okRow { v with URL := addURL cfg.host v }) := by
  obtain ⟨n, hn⟩ : ∃ n, cfg.workers = n + 2 := ⟨cfg.workers - 2, by omega⟩
  cases arCollections with
  | nil =>
    have hk0 : k = 0 := by
      rcases hk with h | h
      · exact absurd rfl h
      · exact h
    subst hk0
    exact ⟨State.init cfg [], rfl, rfl, rfl, rfl, rfl⟩
  | cons v recs =>
    have h1 := run_retryActs cfg k 0 recs { v with URL := addURL cfg.host v }
      (List.replicate n Worker.idle) [] (recs.length + 1) 0 (by omega) (by simp)
    have h2 := run_restActs cfg recs (Worker.idle :: List.replicate n Worker.idle)
      [okRow { v with URL := addURL cfg.host v }] (recs.length + 1) (0 + k)
      (by simp only [List.length_cons, List.length_nil]; omega)
    have hrun : run cfg (schedule (v :: recs).length k) (State.init cfg (v :: recs))
        = some
          { todo := [], workers := Worker.idle :: Worker.idle :: List.replicate n Worker.idle,
            resReturns := [okRow { v with URL := addURL cfg.host v }]
              ++ recs.map (fun v => okRow { v with URL := addURL cfg.host v }),
            total := recs.length + 1, retries := 0 + k, halted := false } := by
      simp only [schedule, List.length_cons, run, State.init, hn, List.replicate_succ]
      simp only [step, Worker.idle, List.getElem?_cons_zero, List.set_cons_zero]
      simp only [pairAt, if_true, Worker.idle] at h1
      rw [run_append, h1]
      simp only [Option.bind, List.nil_append]
      simp only [Worker.idle] at h2
      exact h2
    exact ⟨_, hrun, by simp, by simp, rfl, by simp⟩

/-! ## The fetch engine: retry transparency -/

theorem step_halted (cfg : Config) (s : State) (hs : s.halted = true) (a : Action) :
    step cfg s a = none := by
  cases a <;> simp [step, hs]

/-- With one worker, a request that times out leaves the worker in the send on
the unbuffered queue with nobody to receive: no step is enabled, the process has
not ended, and the aggregator waits for its first row. -/
theorem getEAD_single_worker_retry_blocks :
    ∃ s : State, Reachable (defaultConfig 1) [testRecord] s
      ∧ s.halted = false ∧ s.retries = 0 ∧ s.resReturns.length = 0
      ∧ ∀ a : Action, step (defaultConfig 1) s a = none := by
  refine ⟨State.mk []
      [Worker.sending [{ testRecord with URL := addURL "http://127.0.0.1" testRecord }] []]
      [] 1 0 false,
    ⟨[Action.feed 0, Action.attempt 0 timeoutWorld], by decide⟩, rfl, rfl, rfl, ?_⟩
  intro a
  cases a with
  | feed i => simp [step]
  | attempt i w =>
    cases i with
    | zero => simp [step]
    | succ i => simp [step]
  | handoff i k =>
    cases i with
    | zero =>
      cases k with
      | zero => simp [step]
      | succ k => simp [step]
    | succ i => simp [step]
  | collect i =>
    cases i with
    | zero => simp [step]
    | succ i => simp [step]

/-- C1 fails at a file that cannot be written: the attempt ends in `log.Fatal`,
it sends neither the job nor a row, and the run on one record ends there with no
row collected. -/
theorem getEAD_write_failure_sends_nothing :
    (getEADStep "./ead_output" "" { testRecord with URL := addURL "http://127.0.0.1" testRecord }
        writeFailWorld).requeued = []
    ∧ (getEADStep "./ead_output" "" { testRecord with URL := addURL "http://127.0.0.1" testRecord }
        writeFailWorld).rows = []
    ∧ (getEADStep "./ead_output" "" { testRecord with URL := addURL "http://127.0.0.1" testRecord }
        writeFailWorld).exit = Exit.fatal
    ∧ ∃ s : State, Reachable (defaultConfig 2) [testRecord] s
        ∧ s.resReturns.length = 0 ∧ [testRecord].length = 1
        ∧ ∀ a : Action, step (defaultConfig 2) s a = none := by
  refine ⟨by decide, by decide, by decide, ?_⟩
  refine ⟨State.mk []
      [Worker.attempting { testRecord with URL := addURL "http://127.0.0.1" testRecord },
        Worker.idle]
      [] 1 0 true,
    ⟨[Action.feed 0, Action.attempt 0 writeFailWorld], by decide⟩, rfl, rfl, ?_⟩
  intro a
  exact step_halted _ _ rfl a

/-- C1, amended: in every reachable state of the engine the rows emitted so far
and the jobs not yet terminal add up to the number of input records.  An
iteration of `getEAD` that goes on to the next one has sent back the same job and
no row, or exactly one row and no job; one that ends in `log.Fatal` has sent
neither.  Hence the aggregator never holds more rows than there are records; when
it holds as many, no record is left to produce and every worker waits with
nothing held or offered; and for every number of retries there is, with two
workers or more, a run with that many retries that collects a row for every
record. -/
theorem getEAD_retry_transparency (cfg : Config) (arCollections : List archonCollection)
    (s : State) (h : Reachable cfg arCollections s) :
    s.emitted + s.pending = arCollections.length
    ∧ s.resReturns.length ≤ arCollections.length
    ∧ (s.resReturns.length = arCollections.length →
        s.todo = [] ∧ ∀ w ∈ s.workers, w = Worker.idle)
    ∧ (∀ (r : archonCollection) (w : World),
        ((getEADStep cfg.output cfg.nameformat r w).exit = Exit.next →
          ((getEADStep cfg.output cfg.nameformat r w).requeued = [r]
            ∧ (getEADStep cfg.output cfg.nameformat r w).rows = [])
          ∨ ((getEADStep cfg.output cfg.nameformat r w).requeued = []
            ∧ ∃ row, (getEADStep cfg.output cfg.nameformat r w).rows = [row]))
        ∧ ((getEADStep cfg.output cfg.nameformat r w).exit = Exit.fatal →
          (getEADStep cfg.output cfg.nameformat r w).requeued = []
            ∧ (getEADStep cfg.output cfg.nameformat r w).rows = []))
    ∧ (∀ k : Nat, 2 ≤ cfg.workers → (arCollections ≠ [] ∨ k = 0) →
        ∃ s1 : State, Reachable cfg arCollections s1 ∧ s1.retries = k
          ∧ s1.resReturns.length = arCollections.length ∧ s1.halted = false) := by
  obtain ⟨hcount, _⟩ := reachable_count cfg arCollections s h
  unfold State.emitted State.pending at hcount
  refine ⟨reachable_count cfg arCollections s h |>.1, by omega, ?_, ?_, ?_⟩
  · intro hfull
    have h1 : s.todo.length = 0 := by omega
    have h2 : (s.workers.map Worker.rowsOut).sum = 0 := by omega
    have h3 : (s.workers.map Worker.jobs).sum = 0 := by omega
    refine ⟨List.length_eq_zero.mp h1, ?_⟩
    intro w hw
    rw [List.sum_eq_zero_iff] at h2 h3
    exact worker_idle_of_zero w (h3 _ (List.mem_map_of_mem _ hw))
      (h2 _ (List.mem_map_of_mem _ hw))
  · intro r w
    constructor
    · intro hn
      rcases getEADStep_next cfg.output cfg.nameformat r w hn with ⟨h1, h2, _⟩ | h1
      · exact Or.inl ⟨h1, h2⟩
      · exact Or.inr h1
    · intro hf
      exact getEADStep_abort cfg.output cfg.nameformat r w (by rw [hf]; decide)
  · intro k hw hk
    obtain ⟨s1, hrun, hr, hl, hh, _⟩ := run_schedule cfg arCollections k hw hk
    exact ⟨s1, ⟨_, hrun⟩, hr, hl, hh⟩

/-- C1, amended, at the run on one record and two workers in which the request
times out once, the job passes to the other worker and is then fetched. -/
theorem getEAD_retry_transparency_witness :
    Reachable (defaultConfig 2) [testRecord]
      { todo := [], workers := [Worker.idle, Worker.idle],
        resReturns := [okRow { testRecord with URL := addURL "http://127.0.0.1" testRecord }],
        total := 1, retries := 1, halted := false }
    ∧ State.emitted
        { todo := [], workers := [Worker.idle, Worker.idle],
          resReturns := [okRow { testRecord with URL := addURL "http://127.0.0.1" testRecord }],
          total := 1, retries := 1, halted := false }
      + State.pending
        { todo := [], workers := [Worker.idle, Worker.idle],
          resReturns := [okRow { testRecord with URL := addURL "http://127.0.0.1" testRecord }],
          total := 1, retries := 1, halted := false }
      = [testRecord].length :=
  ⟨⟨[Action.feed 0, Action.attempt 0 timeoutWorld, Action.handoff 0 1,
      Action.attempt 1 okWorld, Action.collect 1], by decide⟩,
    (getEAD_retry_transparency (defaultConfig 2) [testRecord] _
      ⟨[Action.feed 0, Action.attempt 0 timeoutWorld, Action.handoff 0 1,
        Action.attempt 1 okWorld, Action.collect 1], by decide⟩).1⟩

/-! ## Further facts on the library models -/

/-- The model of `strings.Contains` holds exactly when the second text is a
contiguous block of the first. -/
theorem Contains_iff (s substr : String) :
    Contains s substr = true ↔ substr.data <:+: s.data := by
  unfold Contains
  rw [List.any_eq_true]
  constructor
  · rintro ⟨t, ht, hp⟩
    rw [List.mem_tails] at ht
    rw [List.isPrefixOf_iff_prefix] at hp
    exact List.infix_iff_prefix_suffix.mpr ⟨t, hp, ht⟩
  · intro h
    obtain ⟨t, hp, ht⟩ := List.infix_iff_prefix_suffix.mp h
    exact ⟨t, (List.mem_tails _ _).mpr ht, List.isPrefixOf_iff_prefix.mpr hp⟩

theorem digitChar_range (d : Nat) (h : d < 10) :
    (decide ('0' ≤ digitChar d) && decide (digitChar d ≤ '9')) = true := by
  interval_cases d <;> decide

theorem digitChar_ne_plus (d : Nat) (h : d < 10) : digitChar d ≠ '+' := by
  interval_cases d <;> decide

theorem utoa_head (n : Nat) : ∃ d t, d < 10 ∧ utoa n = digitChar d :: t := by
  cases h : utoa n with
  | nil => exact absurd h (utoa_ne_nil n)
  | cons c t =>
    obtain ⟨d, hd, hc⟩ := utoa_digits n c (by rw [h]; simp)
    exact ⟨d, t, hd, by rw [hc]⟩

theorem utoa_all_digits (n : Nat) : ∀ c ∈ utoa n, '0' ≤ c ∧ c ≤ '9' := by
  intro c hc
  obtain ⟨d, hd, hcd⟩ := utoa_digits n c hc
  rw [hcd]
  have := digitChar_range d hd
  simpa using this

/-- The text that the model of `strconv.Itoa` writes for an integer in the range
of a 64-bit `int` is a decimal integer that denotes it. -/
theorem DecimalInt_Itoa (n : Int) (hlo : -(2 ^ 63 : Int) ≤ n) (hhi : n < (2 ^ 63 : Int)) :
    DecimalInt (Itoa n) n := by
  cases n with
  | ofNat m =>
    exact ⟨utoa m, utoa_ne_nil m, utoa_all_digits m,
      Or.inl ⟨Or.inl rfl, by rw [decimalVal_utoa]; rfl⟩, hlo, hhi⟩
  | negSucc m =>
    exact ⟨utoa (m + 1), utoa_ne_nil (m + 1), utoa_all_digits (m + 1),
      Or.inr ⟨rfl, by rw [decimalVal_utoa]; rfl⟩, hlo, hhi⟩

/-- The model of `strconv.Atoi` reads back what the model of `strconv.Itoa`
writes, for every integer in the range of a 64-bit `int`. -/
theorem Atoi_Itoa (n : Int) (hlo : -(2 ^ 63 : Int) ≤ n) (hhi : n < (2 ^ 63 : Int)) :
    Atoi (Itoa n) = Except.ok n :=
  Atoi_of_DecimalInt (Itoa n) n (DecimalInt_Itoa n hlo hhi)

/-- Every character that `sanitizeFilename` returns is outside the bracket
expression, is none of the single characters of the pattern, and is no white
space. -/
theorem replaceAllExclude_clean (cs : List Char) :
    ∀ (inSpaceMatch : Bool) (c : Char), c ∈ replaceAllExclude inSpaceMatch cs →
      regExcludeClass.contains c = false ∧ regExcludeSingles.contains c = false
        ∧ regSpace c = false := by
  induction cs with
  | nil => intro b c hc; simp [replaceAllExclude] at hc
  | cons x cs ih =>
    intro b c hc
    unfold replaceAllExclude at hc
    split_ifs at hc with h1 h2 h3
    · exact ih true c hc
    · rcases List.mem_cons.mp hc with h | h
      · subst h; decide
      · exact ih false c h
    · rcases List.mem_cons.mp hc with h | h
      · subst h; decide
      · exact ih true c h
    · rcases List.mem_cons.mp hc with h | h
      · subst h
        simp only [Bool.or_eq_true, not_or, Bool.not_eq_true] at h2 h3
        exact ⟨h2.1, h2.2, h3⟩
      · exact ih false c h

theorem sanitizeFilename_clean (name : String) (c : Char)
    (hc : c ∈ (sanitizeFilename name).data) :
    regExcludeClass.contains c = false ∧ regExcludeSingles.contains c = false
      ∧ regSpace c = false :=
  replaceAllExclude_clean name.data false c hc

/-! ## The fetch engine: when a run can go on -/

theorem sum_pos_exists (f : Worker → Nat) (l : List Worker) (h : 0 < (l.map f).sum) :
    ∃ (i : Nat) (w : Worker), l[i]? = some w ∧ 0 < f w := by
  induction l with
  | nil => simp at h
  | cons x l ih =>
    simp only [List.map_cons, List.sum_cons] at h
    by_cases hx : 0 < f x
    · exact ⟨0, x, by simp, hx⟩
    · obtain ⟨i, w, hi, hw⟩ := ih (by omega)
      exact ⟨i + 1, w, by simpa using hi, hw⟩

theorem attempt_enabled (cfg : Config) (s : State) (hh : s.halted = false) (i : Nat)
    (r : archonCollection) (hw : s.workers[i]? = some (Worker.attempting r)) (w : World) :
    ∃ s1, step cfg s (Action.attempt i w) = some s1 := by
  simp only [step, hh, hw]
  split
  · exact ⟨_, rfl⟩
  · exact ⟨_, rfl⟩

theorem collect_enabled (cfg : Config) (s : State) (hh : s.halted = false)
    (hlt : s.resReturns.length < s.total) (i : Nat) (q : List archonCollection)
    (row : List String) (rows : List (List String))
    (hw : s.workers[i]? = some (Worker.sending q (row :: rows))) :
    ∃ s1, step cfg s (Action.collect i) = some s1 := by
  simp only [step, hh, hw, hlt, if_true]
  exact ⟨_, rfl⟩

/-- As long as the process has not ended and the aggregator still waits for a
row, a step is enabled unless every worker is in the send of a re-enqueued job:
one worker that is not is enough. -/
theorem step_enabled (cfg : Config) (s : State) (hinv : s.emitted + s.pending = s.total)
    (hh : s.halted = false) (hlt : s.resReturns.length < s.total)
    (i : Nat) (w : Worker) (hw : s.workers[i]? = some w)
    (hfree : ∀ r q, w ≠ Worker.sending (r :: q) []) :
    ∃ a s1, step cfg s a = some s1 := by
  cases w with
  | attempting r =>
    obtain ⟨s1, h1⟩ := attempt_enabled cfg s hh i r hw okWorld
    exact ⟨_, s1, h1⟩
  | sending q rows =>
    cases rows with
    | cons row rows =>
      obtain ⟨s1, h1⟩ := collect_enabled cfg s hh hlt i q row rows hw
      exact ⟨_, s1, h1⟩
    | nil =>
      cases q with
      | cons r q => exact absurd rfl (hfree r q)
      | nil =>
        cases htodo : s.todo with
        | cons v rest =>
          exact ⟨Action.feed i,
            { s with
              todo := rest
              workers := s.workers.set i
                (Worker.attempting { v with URL := addURL cfg.host v }) },
            by simp only [step, hh, htodo, hw]⟩
        | nil =>
          unfold State.emitted State.pending at hinv
          rw [htodo] at hinv
          simp only [List.length_nil] at hinv
          have hpos : 0 < (s.workers.map Worker.rowsOut).sum
              ∨ 0 < (s.workers.map Worker.jobs).sum := by omega
          rcases hpos with hp | hp
          · obtain ⟨i2, w2, hi2, hw2⟩ := sum_pos_exists _ _ hp
            cases w2 with
            | attempting r => simp [Worker.rowsOut] at hw2
            | sending q2 rows2 =>
              cases rows2 with
              | nil => simp [Worker.rowsOut] at hw2
              | cons row rows2 =>
                obtain ⟨s1, h1⟩ := collect_enabled cfg s hh hlt i2 q2 row rows2 hi2
                exact ⟨_, s1, h1⟩
          · obtain ⟨i2, w2, hi2, hw2⟩ := sum_pos_exists _ _ hp
            cases w2 with
            | attempting r =>
              obtain ⟨s1, h1⟩ := attempt_enabled cfg s hh i2 r hi2 okWorld
              exact ⟨_, s1, h1⟩
            | sending q2 rows2 =>
              cases q2 with
              | nil => simp [Worker.jobs] at hw2
              | cons r q2 =>
                exact ⟨Action.handoff i2 i,
                  { s with
                    workers := (s.workers.set i2 (Worker.sending q2 rows2)).set i
                      (Worker.attempting r)
                    retries := s.retries + 1 },
                  by simp only [step, hh, hi2, hw]⟩

/-- In a reachable state with the process alive and rows still awaited, one
worker that is not in the send of a re-enqueued job is enough for a step. -/
theorem reachable_step_enabled (cfg : Config) (arCollections : List archonCollection)
    (s : State) (h : Reachable cfg arCollections s) (hh : s.halted = false)
    (hlt : s.resReturns.length < arCollections.length)
    (i : Nat) (w : Worker) (hw : s.workers[i]? = some w)
    (hfree : ∀ r q, w ≠ Worker.sending (r :: q) []) :
    ∃ a s1, step cfg s a = some s1 := by
  obtain ⟨h1, h2⟩ := reachable_count cfg arCollections s h
  exact step_enabled cfg s (by omega) hh (by omega) i w hw hfree
end Eadfetch
